import Mathlib

/-!
# Sudoku (src/sudoku.js): a shallow embedding and its verified properties

The grids of the program are 9x9 JavaScript arrays of numbers.  They are
embedded as functions `Fin 9 → Fin 9 → Nat`; `0` is the empty cell.  The
random source (`Math.random`) is an explicit stream of naturals; a draw
`Math.floor(Math.random() * k)` is the next stream element modulo `k`.
The recursive searches carry a fuel argument, and the theorems show that
the fuel the entry points pass is always enough.
-/

namespace Sudoku

/-! ## Data model -/

/-- A 9x9 grid of numbers, `0` meaning empty (`gameState.board` and friends). -/
abbrev Grid := Fin 9 → Fin 9 → Nat

/-- The grid `Array(9).fill().map(() => Array(9).fill(0))`. -/
def emptyGrid : Grid := fun _ _ => 0

/-- The assignment `board[row][col] = v`. -/
def setCell (board : Grid) (row col : Fin 9) (v : Nat) : Grid :=
  fun r c => if r = row ∧ c = col then v else board r c

/-- Reads a grid from a list of rows (used to write concrete grids down). -/
def ofRows (rows : List (List Nat)) : Grid :=
  fun r c => (rows.getD r.val []).getD c.val 0

/-- The indices `0..8` in loop order. -/
def idx9 : List (Fin 9) := [0, 1, 2, 3, 4, 5, 6, 7, 8]

/-- The indices `0..2` in loop order. -/
def idx3 : List (Fin 3) := [0, 1, 2]

/-- The index `Math.floor(row / 3) * 3 + i` of `isValidPlacement`. -/
def boxIdx (row : Fin 9) (i : Fin 3) : Fin 9 :=
  ⟨row.val / 3 * 3 + i.val, by omega⟩

/-- The index `row + i` of `fillBox`, for a box corner `row = 3 * b`. -/
def cornerIdx (b : Fin 3) (i : Fin 3) : Fin 9 :=
  ⟨3 * b.val + i.val, by omega⟩

/-- All cells in row-major order: the order of the nested `for` loops. -/
def allCells : List (Fin 9 × Fin 9) :=
  idx9.flatMap fun r => idx9.map fun c => (r, c)

/-! ## Constraint checker -/

/-- The function `isValidPlacement(board, row, col, num)`: three scans with
early `return false`, then `return true`. -/
def isValidPlacement (board : Grid) (row col : Fin 9) (num : Nat) : Bool :=
  if idx9.any (fun x => board row x == num) then false
  else if idx9.any (fun x => board x col == num) then false
  else if idx3.any (fun i => idx3.any fun j =>
      board (boxIdx row i) (boxIdx col j) == num) then false
  else true

/-- The first cell holding `0` in row-major order, as found by the nested
loops of `solveSudoku` and of `backtrack`. -/
def findEmpty (board : Grid) : Option (Fin 9 × Fin 9) :=
  allCells.find? fun p => board p.1 p.2 == 0

/-! ## Random source and shuffling -/

/-- The stream of values behind `Math.random()`. -/
abbrev Rng := Nat → Nat

/-- The stream after one draw. -/
def Rng.next (rng : Rng) : Rng := fun n => rng (n + 1)

/-- The exchange `[array[i], array[j]] = [array[j], array[i]]`. -/
def swapAt (array : List Nat) (i j : Nat) : List Nat :=
  (array.set i (array.getD j 0)).set j (array.getD i 0)

/-- The loop of `shuffleArray` from index `i` down to `1`; each round draws
`j = Math.floor(Math.random() * (i + 1))`. -/
def shuffleFrom : Nat → Rng → List Nat → List Nat × Rng
  | 0, rng, array => (array, rng)
  | i + 1, rng, array =>
    shuffleFrom i rng.next (swapAt array (i + 1) (rng 0 % (i + 2)))

/-- The function `shuffleArray(array)` (Fisher-Yates). -/
def shuffleArray (rng : Rng) (array : List Nat) : List Nat × Rng :=
  shuffleFrom (array.length - 1) rng array

/-- The literal `[1, 2, 3, 4, 5, 6, 7, 8, 9]`. -/
def digits : List Nat := [1, 2, 3, 4, 5, 6, 7, 8, 9]

/-! ## Full-grid generator -/

/-- The function `fillBox(board, row, col)` for the corner `(3*br, 3*bc)`:
the cell `(row + i, col + j)` receives the value popped at step `3*i + j`,
which is the element `8 - (3*i + j)` of the shuffled array. -/
def fillBox (rng : Rng) (board : Grid) (br bc : Fin 3) : Grid × Rng :=
  let shuffled := shuffleArray rng digits
  let popped := shuffled.1.reverse
  let board' := idx3.foldl (fun b i => idx3.foldl (fun b' j =>
      setCell b' (cornerIdx br i) (cornerIdx bc j) (popped.getD (3 * i.val + j.val) 0)) b)
    board
  (board', shuffled.2)

/-- The loop `for (let i = 0; i < 9; i += 3) fillBox(board, i, i)` of
`generateSolvedBoard`. -/
def fillDiagonal (rng : Rng) (board : Grid) : Grid × Rng :=
  let b1 := fillBox rng board 0 0
  let b2 := fillBox b1.2 b1.1 1 1
  fillBox b2.2 b2.1 2 2

/-- The `for (const num of numbers)` loop of `solveSudoku` at the empty cell
`(row, col)`; `recur` is the recursive call.  The result is the returned
boolean, the board as left by the call and the remaining random stream;
`none` means the fuel of the recursive call ran out. -/
def solveLoop (recur : Rng → Grid → Option (Bool × Grid × Rng)) (row col : Fin 9) :
    List Nat → Rng → Grid → Option (Bool × Grid × Rng)
  | [], rng, board => some (false, board, rng)
  | num :: rest, rng, board =>
    if isValidPlacement board row col num then
      match recur rng (setCell board row col num) with
      | none => none
      | some (true, board', rng') => some (true, board', rng')
      | some (false, board', rng') =>
        solveLoop recur row col rest rng' (setCell board' row col 0)
    else solveLoop recur row col rest rng board

/-- The function `solveSudoku(board)` with a recursion budget. -/
def solveSudokuFuel : Nat → Rng → Grid → Option (Bool × Grid × Rng)
  | 0, _, _ => none
  | fuel + 1, rng, board =>
    match findEmpty board with
    | none => some (true, board, rng)
    | some (row, col) =>
      let shuffled := shuffleArray rng digits
      solveLoop (solveSudokuFuel fuel) row col shuffled.1 shuffled.2 board

/-- The function `solveSudoku(board)`: the recursion is at most 81 deep, one
level per empty cell, so 82 levels always suffice. -/
def solveSudoku (rng : Rng) (board : Grid) : Option (Bool × Grid × Rng) :=
  solveSudokuFuel 82 rng board

/-! ## Solution counter -/

/-- The `for (let num = 1; num <= 9; num++)` loop of `backtrack` at the empty
cell `(row, col)`, with the running counter `solutions` threaded through. -/
def backtrackLoop (recur : Grid → Nat → Option (Grid × Nat)) (maxSolutions : Nat)
    (row col : Fin 9) : List Nat → Grid → Nat → Option (Grid × Nat)
  | [], board, solutions => some (board, solutions)
  | num :: rest, board, solutions =>
    if isValidPlacement board row col num then
      match recur (setCell board row col num) solutions with
      | none => none
      | some (board', solutions') =>
        if solutions' ≥ maxSolutions then some (setCell board' row col 0, solutions')
        else backtrackLoop recur maxSolutions row col rest (setCell board' row col 0) solutions'
    else backtrackLoop recur maxSolutions row col rest board solutions

/-- The inner function `backtrack()` of `countSolutions` with a recursion
budget; the state is the board and the counter `solutions`. -/
def backtrack (maxSolutions : Nat) : Nat → Grid → Nat → Option (Grid × Nat)
  | 0, _, _ => none
  | fuel + 1, board, solutions =>
    match findEmpty board with
    | none => some (board, solutions + 1)
    | some (row, col) =>
      backtrackLoop (backtrack maxSolutions fuel) maxSolutions row col digits board solutions

/-- The function `countSolutions(board, maxSolutions)` together with the
board as the call leaves it. -/
def countSolutionsState (board : Grid) (maxSolutions : Nat) : Option (Grid × Nat) :=
  backtrack maxSolutions 82 board 0

/-- The value returned by `countSolutions(board, maxSolutions)`. -/
def countSolutions (board : Grid) (maxSolutions : Nat) : Option Nat :=
  (countSolutionsState board maxSolutions).map Prod.snd

/-! ## Game session -/

/-- The difficulty tags of `difficultySettings`. -/
inductive Difficulty where
  | easy | medium | hard | expert
  deriving DecidableEq, Repr

/-- The table `difficultySettings` (number of cells to remove). -/
def difficultySettings : Difficulty → Nat
  | .easy => 40
  | .medium => 50
  | .hard => 55
  | .expert => 60

/-- The object `gameState`.  The field `timerInterval` records whether an
interval handle is held (`true`) or the field is `null` (`false`). -/
structure GameState where
  board : Grid
  solution : Grid
  initialBoard : Grid
  selectedCell : Option (Fin 9 × Fin 9)
  selectedNumber : Option Nat
  notesMode : Bool
  difficulty : Difficulty
  timer : Nat
  timerInterval : Bool
  gameActive : Bool
  gamesPlayed : Nat
  gamesWon : Nat
  hintsUsed : Nat
  bestTime : Option Nat
  errors : Nat

/-- The function `generateSolvedBoard()`: three `fillBox` calls on an all-zero
board, `solveSudoku` (its boolean result is discarded), then the copy of the
board into `gameState.solution`. -/
def generateSolvedBoard (rng : Rng) (gs : GameState) : Option (GameState × Rng) :=
  let seeded := fillDiagonal rng emptyGrid
  match solveSudoku seeded.2 seeded.1 with
  | none => none
  | some (_, board, rng') => some ({ gs with solution := board }, rng')

/-- The draw `Math.floor(Math.random() * 9)`. -/
def drawIndex (r : Nat) : Fin 9 := ⟨r % 9, Nat.mod_lt _ (by decide)⟩

/-- The constant `maxAttempts` of `createPuzzle`. -/
def maxAttempts : Nat := 200

/-- The state of the carving loop of `createPuzzle`: the session, the locals
`removed` and `attempts`, the random stream, and a record of the outcome of
every iteration so far, latest first (`true` for a kept removal). -/
structure CarveState where
  gs : GameState
  removed : Nat
  attempts : Nat
  rng : Rng
  trace : List Bool

/-- One execution of the body of the `while` loop of `createPuzzle`. -/
def carveBody (cs : CarveState) : Option CarveState :=
  let row := drawIndex (cs.rng 0)
  let col := drawIndex (cs.rng 1)
  let rng' := cs.rng.next.next
  if cs.gs.board row col = 0 then
    some { cs with attempts := cs.attempts + 1, rng := rng', trace := false :: cs.trace }
  else
    let temp := cs.gs.board row col
    let board' := setCell cs.gs.board row col 0
    let initial' := setCell cs.gs.initialBoard row col 0
    match countSolutions board' 2 with
    | none => none
    | some solutions =>
      if solutions = 1 then
        some { gs := { cs.gs with board := board', initialBoard := initial' },
               removed := cs.removed + 1, attempts := 0, rng := rng',
               trace := true :: cs.trace }
      else
        some { gs := { cs.gs with board := setCell board' row col temp,
                                  initialBoard := setCell initial' row col temp },
               removed := cs.removed, attempts := cs.attempts + 1, rng := rng',
               trace := false :: cs.trace }

/-- The loop `while (removed < cellsToRemove && attempts < maxAttempts)` with
an iteration budget. -/
def carveLoop (cellsToRemove : Nat) : Nat → CarveState → Option CarveState
  | 0, _ => none
  | fuel + 1, cs =>
    if cs.removed < cellsToRemove ∧ cs.attempts < maxAttempts then
      match carveBody cs with
      | none => none
      | some cs' => carveLoop cellsToRemove fuel cs'
    else some cs

/-- The state in which the carving loop of `createPuzzle` starts: the
solution copied to `board` and `initialBoard`, both counters at zero. -/
def carveStart (rng : Rng) (gs : GameState) : CarveState :=
  { gs := { gs with board := gs.solution, initialBoard := gs.solution },
    removed := 0, attempts := 0, rng := rng, trace := [] }

/-- The function `createPuzzle()` for a target `cellsToRemove`; the loop
budget `maxAttempts * cellsToRemove + 1` is never exhausted. -/
def createPuzzleWith (cellsToRemove : Nat) (rng : Rng) (gs : GameState) : Option CarveState :=
  carveLoop cellsToRemove (maxAttempts * cellsToRemove + 1) (carveStart rng gs)

/-- The function `createPuzzle()`. -/
def createPuzzle (rng : Rng) (gs : GameState) : Option CarveState :=
  createPuzzleWith (difficultySettings gs.difficulty) rng gs

/-- The function `isBoardCorrect()`. -/
def isBoardCorrect (gs : GameState) : Bool :=
  allCells.all fun p => gs.board p.1 p.2 == gs.solution p.1 p.2

/-- The test `!gameState.bestTime || gameState.timer < gameState.bestTime`;
both `null` and `0` are falsy. -/
def bestTimeBeaten (gs : GameState) : Bool :=
  match gs.bestTime with
  | none => true
  | some b => b == 0 || decide (gs.timer < b)

/-- The function `checkGameCompletion()`: the new state and the returned
value, `none` standing for the `undefined` of the bare `return`. -/
def checkGameCompletion (gs : GameState) : GameState × Option Bool :=
  if !gs.gameActive then (gs, none)
  else if allCells.any (fun p => gs.board p.1 p.2 == 0) then (gs, some false)
  else if isBoardCorrect gs then
    let won := { gs with gameActive := false, gamesWon := gs.gamesWon + 1,
                         timerInterval := false }
    (if bestTimeBeaten won then { won with bestTime := some won.timer } else won, some true)
  else (gs, some false)

/-- The function `inputNumber(number)`.  In notes mode `toggleNote` only
edits the page, which is not part of the state. -/
def inputNumber (gs : GameState) (number : Nat) : GameState :=
  match gs.selectedCell with
  | none => gs
  | some (row, col) =>
    if !gs.gameActive then gs
    else if gs.initialBoard row col ≠ 0 then gs
    else
      let gs' :=
        if gs.notesMode then gs
        else
          (checkGameCompletion
            { gs with board :=
                if gs.board row col = number then setCell gs.board row col 0
                else setCell gs.board row col number }).1
      { gs' with selectedNumber := some number }

/-- The function `selectCell(row, col)`: a click on the selected cell clears
the selection; otherwise the cell is selected, and the selection is cleared
again when the cell is prefilled. -/
def selectCell (gs : GameState) (row col : Fin 9) : GameState :=
  if gs.selectedCell = some (row, col) then { gs with selectedCell := none }
  else
    let gs' := { gs with selectedCell := some (row, col) }
    if gs'.initialBoard row col ≠ 0 then { gs' with selectedCell := none } else gs'

/-- The array `emptyCells` built by the nested loops of `provideHint`. -/
def emptyCells (board : Grid) : List (Fin 9 × Fin 9) :=
  allCells.filter fun p => board p.1 p.2 == 0

/-- The function `provideHint()`; the index
`Math.floor(Math.random() * emptyCells.length)` is the next stream element
modulo the length.  No random number is drawn on the two early returns. -/
def provideHint (rng : Rng) (gs : GameState) : GameState × Rng :=
  if !gs.gameActive then (gs, rng)
  else
    if h : (emptyCells gs.board).length = 0 then (gs, rng)
    else
      let cell := (emptyCells gs.board).get
        ⟨rng 0 % (emptyCells gs.board).length, Nat.mod_lt _ (Nat.pos_of_ne_zero h)⟩
      let gs' := { gs with
        board := setCell gs.board cell.1 cell.2 (gs.solution cell.1 cell.2),
        hintsUsed := gs.hintsUsed + 1 }
      ((checkGameCompletion gs').1, rng.next)

/-- The copy loop of `solvePuzzle`: `board[row][col] = solution[row][col]`
for every cell in row-major order. -/
def copySolution (board solution : Grid) : Grid :=
  allCells.foldl (fun b p => setCell b p.1 p.2 (solution p.1 p.2)) board

/-- The function `solvePuzzle()`. -/
def solvePuzzle (gs : GameState) : GameState :=
  if !gs.gameActive then gs
  else { gs with board := copySolution gs.board gs.solution,
                 gameActive := false, timerInterval := false }

/-- The function `checkCurrentSolution()`; the message box is not part of the
state. -/
def checkCurrentSolution (gs : GameState) : GameState :=
  if !gs.gameActive then gs
  else if isBoardCorrect gs then gs
  else { gs with errors := gs.errors + 1 }

/-- The erasure shared by the eraser button and the Delete/Backspace keys:
`if (initialBoard[row][col] === 0) board[row][col] = 0` at the selected
cell. -/
def eraseSelected (gs : GameState) : GameState :=
  match gs.selectedCell with
  | none => gs
  | some (row, col) =>
    if gs.initialBoard row col = 0 then { gs with board := setCell gs.board row col 0 }
    else gs

/-- The click handler of the eraser button. -/
def eraserClick (gs : GameState) : GameState :=
  if gs.selectedCell.isSome && gs.gameActive then eraseSelected gs else gs

/-- The keys the `keydown` handler tells apart; `digit n` is a key between
`'1'` and `'9'` with `n = parseInt(e.key)`. -/
inductive Key where
  | digit (n : Nat)
  | delete | backspace
  | arrowUp | arrowDown | arrowLeft | arrowRight
  | other
  deriving DecidableEq

/-- The row `newRow` computed by the `switch` of the `keydown` handler. -/
def arrowRow (key : Key) (row : Fin 9) : Fin 9 :=
  match key with
  | .arrowUp => ⟨row.val - 1, by omega⟩
  | .arrowDown => ⟨min 8 (row.val + 1), by omega⟩
  | _ => row

/-- The column `newCol` computed by the `switch` of the `keydown` handler. -/
def arrowCol (key : Key) (col : Fin 9) : Fin 9 :=
  match key with
  | .arrowLeft => ⟨col.val - 1, by omega⟩
  | .arrowRight => ⟨min 8 (col.val + 1), by omega⟩
  | _ => col

/-- The `keydown` handler: nothing when the session is inactive; then the
digit keys, the erase keys and the arrow keys, in this order. -/
def keydown (gs : GameState) (key : Key) : GameState :=
  if !gs.gameActive then gs
  else
    let gs1 := match key with
      | .digit n => inputNumber gs n
      | _ => gs
    let gs2 := if key = .delete ∨ key = .backspace then eraseSelected gs1 else gs1
    match gs2.selectedCell with
    | none => gs2
    | some (row, col) =>
      if arrowRow key row ≠ row ∨ arrowCol key col ≠ col then
        selectCell gs2 (arrowRow key row) (arrowCol key col)
      else gs2

/-! ## Specification vocabulary -/

/-- Two cells lie in a common row, column or 3x3 box. -/
def SameUnit (r c r' c' : Fin 9) : Prop :=
  r = r' ∨ c = c' ∨ (r.val / 3 = r'.val / 3 ∧ c.val / 3 = c'.val / 3)

instance (r c r' c' : Fin 9) : Decidable (SameUnit r c r' c') := by
  unfold SameUnit; infer_instance

/-- No non-zero value occurs twice in a row, a column or a 3x3 box. -/
def ConflictFree (g : Grid) : Prop :=
  ∀ r c r' c' : Fin 9, (r ≠ r' ∨ c ≠ c') → SameUnit r c r' c' → g r c ≠ 0 → g r c ≠ g r' c'

instance (g : Grid) : Decidable (ConflictFree g) := by
  unfold ConflictFree; infer_instance

/-- The `k`-th cell of row `u`. -/
def rowCell (u k : Fin 9) : Fin 9 × Fin 9 := (u, k)

/-- The `k`-th cell of column `u`. -/
def colCell (u k : Fin 9) : Fin 9 × Fin 9 := (k, u)

/-- The `k`-th cell of box `u`, boxes and cells in row-major order. -/
def boxCell (u k : Fin 9) : Fin 9 × Fin 9 :=
  (⟨3 * (u.val / 3) + k.val / 3, by omega⟩, ⟨3 * (u.val % 3) + k.val % 3, by omega⟩)

/-- How many of the nine cells of a unit hold the value `d`. -/
def occurrences (g : Grid) (unit : Fin 9 → Fin 9 × Fin 9) (d : Nat) : Nat :=
  (Finset.univ.filter fun k : Fin 9 => g (unit k).1 (unit k).2 = d).card

/-- A fully filled valid Sudoku grid: no zero cell, and every row, column and
3x3 box contains each digit 1..9 exactly once. -/
def IsValidSolution (g : Grid) : Prop :=
  (∀ r c : Fin 9, g r c ≠ 0) ∧
  ∀ u : Fin 9, ∀ d ∈ digits,
    occurrences g (rowCell u) d = 1 ∧ occurrences g (colCell u) d = 1 ∧
    occurrences g (boxCell u) d = 1

instance (g : Grid) : Decidable (IsValidSolution g) := by
  unfold IsValidSolution; infer_instance

/-- The grid `s` agrees with `g` on every non-zero cell of `g`. -/
def Agrees (g s : Grid) : Prop :=
  ∀ r c : Fin 9, g r c ≠ 0 → s r c = g r c

instance (g s : Grid) : Decidable (Agrees g s) := by
  unfold Agrees; infer_instance

/-- A grid with cells in `0..9`, as a grid of naturals. -/
def toGrid (s : Fin 9 → Fin 9 → Fin 10) : Grid := fun r c => (s r c).val

/-- The fully filled valid Sudoku grids that agree with `g` on its non-zero
cells. -/
@[irreducible] def completions (g : Grid) : Finset (Fin 9 → Fin 9 → Fin 10) :=
  Finset.univ.filter fun s => IsValidSolution (toGrid s) ∧ Agrees g (toGrid s)

/-- The true solution count of `g`. -/
def trueCount (g : Grid) : Nat := (completions g).card

/-- The number of zero cells of a grid. -/
def zeroCount (g : Grid) : Nat :=
  (Finset.univ.filter fun p : Fin 9 × Fin 9 => g p.1 p.2 = 0).card

/-- The board obtained by writing `solution[r][c]` into every zero cell of
`board`. -/
def fillZeros (board solution : Grid) : Grid :=
  fun r c => if board r c = 0 then solution r c else board r c

/-- The grid with the number 1 in every cell. -/
def allOnes : Grid := fun _ _ => 1

/-- A solved grid used in examples. -/
def sampleSolution : Grid := ofRows
  [[5, 3, 4, 6, 7, 8, 9, 1, 2],
   [6, 7, 2, 1, 9, 5, 3, 4, 8],
   [1, 9, 8, 3, 4, 2, 5, 6, 7],
   [8, 5, 9, 7, 6, 1, 4, 2, 3],
   [4, 2, 6, 8, 5, 3, 7, 9, 1],
   [7, 1, 3, 9, 2, 4, 8, 5, 6],
   [9, 6, 1, 5, 3, 7, 2, 8, 4],
   [2, 8, 7, 4, 1, 9, 6, 3, 5],
   [3, 4, 5, 2, 8, 6, 1, 7, 9]]

/-- A session in play: the sample grid with its cell (0,0) entered by the
player, every other cell given. -/
def sampleState : GameState :=
  { board := sampleSolution, solution := sampleSolution,
    initialBoard := setCell sampleSolution 0 0 0,
    selectedCell := some (0, 0), selectedNumber := none, notesMode := false,
    difficulty := .easy, timer := 75, timerInterval := true, gameActive := true,
    gamesPlayed := 3, gamesWon := 1, hintsUsed := 0, bestTime := some 90, errors := 0 }

/-- The invariant of the carving loop of `createPuzzle`, started from the
session `gs0` with target `T`.  The two last fields are about a fully filled
solution. -/
structure CarveInv (gs0 : GameState) (T : Nat) (cs : CarveState) : Prop where
  frame : cs.gs = { gs0 with board := cs.gs.board, initialBoard := cs.gs.initialBoard }
  initial_eq : cs.gs.initialBoard = cs.gs.board
  cell : ∀ r c : Fin 9, cs.gs.board r c = 0 ∨ cs.gs.board r c = gs0.solution r c
  removed_le : cs.removed ≤ T
  attempts_le : cs.attempts ≤ maxAttempts
  done_attempts : cs.removed = T → cs.attempts = 0
  trace_fail : ∀ i, i < cs.attempts → cs.trace.get? i = some false
  trace_len : cs.trace.length ≤ maxAttempts * cs.removed + cs.attempts
  zeros : (∀ r c : Fin 9, gs0.solution r c ≠ 0) → zeroCount cs.gs.board = cs.removed
  unique : (∀ r c : Fin 9, gs0.solution r c ≠ 0) → countSolutions cs.gs.board 2 = some 1

/-- The progress measure of the carving loop. -/
def carveMeasure (T : Nat) (cs : CarveState) : Nat :=
  maxAttempts * (T - cs.removed) - cs.attempts

/-- A random stream whose cell picks are (0,0) two hundred times, then (0,1),
then (0,0) for ever. -/
def stallRng : Rng := fun n => if n = 401 then 1 else 0

/-- What a call of `solveSudoku` on `b` that returns `res` and leaves the
board `b'` guarantees: a failed call restores the board; on a conflict-free
board of digits a successful call leaves a valid solution that keeps the given
cells, and a failed call means that there is no completion. -/
def SolveOutcome (b : Grid) (res : Bool) (b' : Grid) : Prop :=
  (res = false → b' = b) ∧
  (ConflictFree b → (∀ r c : Fin 9, b r c ≤ 9) →
    (res = true → IsValidSolution b' ∧ Agrees b b') ∧ (res = false → trueCount b = 0))

/-- Every given cell holds its initial digit, which is the solution digit. -/
def GivenFixed (gs : GameState) : Prop :=
  ∀ r c : Fin 9, gs.initialBoard r c ≠ 0 →
    gs.board r c = gs.initialBoard r c ∧ gs.initialBoard r c = gs.solution r c

/-- The operations a player can trigger during play, with their arguments. -/
inductive PlayOp where
  | select (row col : Fin 9)
  | input (number : Nat)
  | eraser
  | key (k : Key)
  | hint (rng : Rng)
  | solve
  | checkCompletion
  | checkSolution

/-- The state after a play operation. -/
def PlayOp.run : PlayOp → GameState → GameState
  | .select row col, gs => selectCell gs row col
  | .input number, gs => inputNumber gs number
  | .eraser, gs => eraserClick gs
  | .key k, gs => keydown gs k
  | .hint rng, gs => (provideHint rng gs).1
  | .solve, gs => solvePuzzle gs
  | .checkCompletion, gs => (checkGameCompletion gs).1
  | .checkSolution, gs => checkCurrentSolution gs

/-- A step from `gs` to `gs'` that leaves the solution and the initial board
alone and keeps the given cells fixed when they were. -/
def KeepsGivens (gs gs' : GameState) : Prop :=
  gs'.solution = gs.solution ∧ gs'.initialBoard = gs.initialBoard ∧
  (GivenFixed gs → GivenFixed gs')

/-- The sample session after it has ended, with no cell selected. -/
def idleState : GameState :=
  { sampleState with gameActive := false, selectedCell := none }

/-- The sample session with the player's cell (0,0) still empty. -/
def oneLeftState : GameState :=
  { sampleState with board := setCell sampleSolution 0 0 0 }

/-- The sample session with the cell (0,0) empty and the wrong digit 9 entered
by the player in the cell (0,1). -/
def wrongState : GameState :=
  { sampleState with
    board := setCell (setCell sampleSolution 0 0 0) 0 1 9,
    initialBoard := setCell (setCell sampleSolution 0 0 0) 0 1 0 }

/-- The sample grid without the cells (0,3), (0,4), (3,3), (3,4), which hold
6 7 over 7 6: the two digits can be exchanged, so there are two completions. -/
def twoSolutions : Grid :=
  setCell (setCell (setCell (setCell sampleSolution 0 3 0) 0 4 0) 3 3 0) 3 4 0

/-- The sample grid with its cell (0,0) emptied and 5 written over the 3 of
the cell (0,1): no digit fits the cell (0,0) any more. -/
def stuckGrid : Grid :=
  setCell (setCell sampleSolution 0 0 0) 0 1 5

/-- The index of the diagonal box `b` among the nine boxes: 0, 4 or 8. -/
def diagBox (b : Fin 3) : Fin 9 := ⟨4 * b.val, by omega⟩

/-- A call that is answered only when the condition `P` on its argument
holds, and is lost (`none`) otherwise. -/
def guardCall {α : Type} (P : Prop) [Decidable P] (result : Option α) : Option α :=
  if P then result else none

/-- The recursive call of `solveSudoku` made from a call on `board`, answered
only on grids with exactly one zero cell fewer than `board`. -/
def solveCallFrom (board : Grid) (fuel : Nat) (rng : Rng) (g : Grid) :
    Option (Bool × Grid × Rng) :=
  guardCall (zeroCount g + 1 = zeroCount board) (solveSudokuFuel fuel rng g)

/-- The recursive call of `backtrack` made from a call on `board`, answered
only on grids with exactly one zero cell fewer than `board`. -/
def backtrackCallFrom (maxSolutions : Nat) (board : Grid) (fuel : Nat) (g : Grid)
    (solutions : Nat) : Option (Grid × Nat) :=
  guardCall (zeroCount g + 1 = zeroCount board) (backtrack maxSolutions fuel g solutions)

/-- The sample session, solved on the board, with a recorded best time of 0
seconds (as saved after a win in the first second and read back by
`loadStatistics`). -/
def zeroBestState : GameState :=
  { sampleState with bestTime := some 0 }

set_option maxRecDepth 100000

/-! ## Indices and cells -/

theorem mem_idx9 (x : Fin 9) : x ∈ idx9 := by
  revert x; decide

theorem mem_idx3 (i : Fin 3) : i ∈ idx3 := by
  revert i; decide

theorem mem_allCells (p : Fin 9 × Fin 9) : p ∈ allCells := by
  obtain ⟨r, c⟩ := p
  simp only [allCells, List.mem_flatMap, List.mem_map]
  exact ⟨r, mem_idx9 r, c, mem_idx9 c, rfl⟩

theorem boxIdx_div (row : Fin 9) (i : Fin 3) : (boxIdx row i).val / 3 = row.val / 3 := by
  simp only [boxIdx]; omega

theorem exists_boxIdx (row r' : Fin 9) (h : r'.val / 3 = row.val / 3) :
    ∃ i : Fin 3, boxIdx row i = r' := by
  refine ⟨⟨r'.val % 3, by omega⟩, ?_⟩
  apply Fin.ext
  simp only [boxIdx]; omega

theorem setCell_same (b : Grid) (r c : Fin 9) (v : Nat) : setCell b r c v r c = v := by
  simp [setCell]

theorem setCell_other (b : Grid) (r c r' c' : Fin 9) (v : Nat) (h : r' ≠ r ∨ c' ≠ c) :
    setCell b r c v r' c' = b r' c' := by
  simp only [setCell]
  rw [if_neg]
  rintro ⟨h1, h2⟩
  rcases h with h | h
  · exact h h1
  · exact h h2

theorem sampleSolution_conflictFree : ConflictFree sampleSolution := by
  decide

/-! ## The constraint checker -/

/-- The checker accepts exactly when `num` is absent from the row, the column
and the box of the cell (the cell itself included). -/
theorem isValidPlacement_eq_true_iff (board : Grid) (row col : Fin 9) (num : Nat) :
    isValidPlacement board row col num = true ↔
      ∀ r' c' : Fin 9, SameUnit row col r' c' → board r' c' ≠ num := by
  unfold isValidPlacement
  constructor
  · intro h r' c' hu
    split_ifs at h with h1 h2 h3
    simp only [List.any_eq_true, beq_iff_eq, not_exists, not_and] at h1 h2 h3
    rcases hu with hu | hu | ⟨hr, hc⟩
    · subst hu; exact h1 c' (mem_idx9 c')
    · subst hu; exact h2 r' (mem_idx9 r')
    · obtain ⟨i, hi⟩ := exists_boxIdx row r' hr.symm
      obtain ⟨j, hj⟩ := exists_boxIdx col c' hc.symm
      have := h3 i (mem_idx3 i) j (mem_idx3 j)
      rw [hi, hj] at this
      exact this
  · intro h
    have h1 : ¬ idx9.any (fun x => board row x == num) = true := by
      simp only [List.any_eq_true, beq_iff_eq, not_exists, not_and]
      intro x _
      exact h row x (Or.inl rfl)
    have h2 : ¬ idx9.any (fun x => board x col == num) = true := by
      simp only [List.any_eq_true, beq_iff_eq, not_exists, not_and]
      intro x _
      exact h x col (Or.inr (Or.inl rfl))
    have h3 : ¬ idx3.any (fun i => idx3.any fun j =>
        board (boxIdx row i) (boxIdx col j) == num) = true := by
      simp only [List.any_eq_true, beq_iff_eq, not_exists, not_and]
      intro i _ j _
      exact h _ _ (Or.inr (Or.inr ⟨(boxIdx_div row i).symm, (boxIdx_div col j).symm⟩))
    rw [if_neg h1, if_neg h2, if_neg h3]

theorem isValidPlacement_eq_false_iff (board : Grid) (row col : Fin 9) (num : Nat) :
    isValidPlacement board row col num = false ↔
      ∃ r' c' : Fin 9, SameUnit row col r' c' ∧ board r' c' = num := by
  rw [← Bool.not_eq_true, isValidPlacement_eq_true_iff]
  push_neg
  rfl

/-- C7: on an empty cell and for a digit 1..9, `isValidPlacement` returns
false when the digit occurs in another cell of the row, of the column or of the
3x3 box with corner `(3*floor(row/3), 3*floor(col/3))`, and true otherwise.
The embedded function returns only the boolean: the source has no write. -/
theorem isValidPlacement_spec (board : Grid) (row col : Fin 9) (num : Nat)
    (hempty : board row col = 0) (h1 : 1 ≤ num) (h9 : num ≤ 9) :
    let occursElsewhere : Prop :=
      (∃ c' : Fin 9, c' ≠ col ∧ board row c' = num) ∨
      (∃ r' : Fin 9, r' ≠ row ∧ board r' col = num) ∨
      (∃ r' c' : Fin 9, (r' ≠ row ∨ c' ≠ col) ∧
        3 * (row.val / 3) ≤ r'.val ∧ r'.val < 3 * (row.val / 3) + 3 ∧
        3 * (col.val / 3) ≤ c'.val ∧ c'.val < 3 * (col.val / 3) + 3 ∧
        board r' c' = num)
    (occursElsewhere → isValidPlacement board row col num = false) ∧
    (¬ occursElsewhere → isValidPlacement board row col num = true) := by
  intro occ
  have key : isValidPlacement board row col num = false ↔ occ := by
    rw [isValidPlacement_eq_false_iff]
    constructor
    · rintro ⟨r', c', hu, hv⟩
      have hne : r' ≠ row ∨ c' ≠ col := by
        by_contra hcon
        push_neg at hcon
        rw [hcon.1, hcon.2, hempty] at hv
        omega
      rcases hu with hu | hu | ⟨hr, hc⟩
      · subst hu
        refine Or.inl ⟨c', ?_, hv⟩
        rcases hne with h | h
        · exact absurd rfl h
        · exact h
      · subst hu
        refine Or.inr (Or.inl ⟨r', ?_, hv⟩)
        rcases hne with h | h
        · exact h
        · exact absurd rfl h
      · refine Or.inr (Or.inr ⟨r', c', hne, ?_, ?_, ?_, ?_, hv⟩) <;> omega
    · rintro (⟨c', _, hv⟩ | ⟨r', _, hv⟩ | ⟨r', c', _, a1, a2, a3, a4, hv⟩)
      · exact ⟨row, c', Or.inl rfl, hv⟩
      · exact ⟨r', col, Or.inr (Or.inl rfl), hv⟩
      · exact ⟨r', c', Or.inr (Or.inr ⟨by omega, by omega⟩), hv⟩
  refine ⟨key.mpr, fun h => ?_⟩
  rw [← Bool.not_eq_false]
  exact fun hf => h (key.mp hf)

/-- Witness for C7: the cell (0,0) of the sample grid once emptied, digit 5. -/
theorem isValidPlacement_spec_witness :
    isValidPlacement (setCell sampleSolution 0 0 0) 0 0 5 = true ∧
    isValidPlacement (setCell sampleSolution 0 0 0) 0 0 3 = false := by
  have h5 := isValidPlacement_spec (setCell sampleSolution 0 0 0) 0 0 5
    (by decide) (by decide) (by decide)
  have h3 := isValidPlacement_spec (setCell sampleSolution 0 0 0) 0 0 3
    (by decide) (by decide) (by decide)
  exact ⟨h5.2 (by decide), h3.1 (by decide)⟩

/-- C8 as stated fails: the sample grid is valid, its cell (0,0) is filled,
and the checker rejects that cell's own digit. -/
theorem isValidPlacement_self_counterexample :
    ConflictFree sampleSolution ∧ sampleSolution 0 0 ≠ 0 ∧
    isValidPlacement sampleSolution 0 0 (sampleSolution 0 0) = false :=
  ⟨sampleSolution_conflictFree, by decide, by decide⟩

/-- C8, amended: on a valid grid the checker rejects the digit of a filled
cell while the cell still holds it (the row scan meets the cell itself), and
accepts it once the cell is emptied. -/
theorem isValidPlacement_self (G : Grid) (hG : ConflictFree G) (r c : Fin 9)
    (hfilled : G r c ≠ 0) :
    isValidPlacement G r c (G r c) = false ∧
    isValidPlacement (setCell G r c 0) r c (G r c) = true := by
  constructor
  · rw [isValidPlacement_eq_false_iff]
    exact ⟨r, c, Or.inl rfl, rfl⟩
  · rw [isValidPlacement_eq_true_iff]
    intro r' c' hu
    by_cases hne : r' ≠ r ∨ c' ≠ c
    · rw [setCell_other _ _ _ _ _ _ hne]
      have hne' : r ≠ r' ∨ c ≠ c' := by
        rcases hne with h | h
        · exact Or.inl (Ne.symm h)
        · exact Or.inr (Ne.symm h)
      exact Ne.symm (hG r c r' c' hne' hu hfilled)
    · push_neg at hne
      rw [hne.1, hne.2, setCell_same]
      exact Ne.symm hfilled

/-- Witness for C8 (amended): the sample grid at its cell (0,0). -/
theorem isValidPlacement_self_witness :
    isValidPlacement sampleSolution 0 0 (sampleSolution 0 0) = false ∧
    isValidPlacement (setCell sampleSolution 0 0 0) 0 0 (sampleSolution 0 0) = true :=
  isValidPlacement_self sampleSolution sampleSolution_conflictFree 0 0 (by decide)

/-! ## Completion check and digit entry -/

theorem any_zero_iff (b : Grid) :
    allCells.any (fun p => b p.1 p.2 == 0) = true ↔ ∃ r c : Fin 9, b r c = 0 := by
  simp only [List.any_eq_true, beq_iff_eq]
  constructor
  · rintro ⟨p, _, hp⟩
    exact ⟨p.1, p.2, hp⟩
  · rintro ⟨r, c, h⟩
    exact ⟨(r, c), mem_allCells _, h⟩

theorem isBoardCorrect_iff (gs : GameState) :
    isBoardCorrect gs = true ↔ ∀ r c : Fin 9, gs.board r c = gs.solution r c := by
  simp only [isBoardCorrect, List.all_eq_true, beq_iff_eq]
  constructor
  · intro h r c
    exact h (r, c) (mem_allCells _)
  · intro h p _
    exact h p.1 p.2

/-- A call of `checkGameCompletion` that does not report a win leaves the
state as it was. -/
theorem checkGameCompletion_not_won (gs : GameState)
    (h : (checkGameCompletion gs).2 ≠ some true) : (checkGameCompletion gs).1 = gs := by
  unfold checkGameCompletion at h ⊢
  split_ifs at h ⊢ <;> first | rfl | exact absurd rfl h

theorem checkGameCompletion_of_zero (gs : GameState) (hactive : gs.gameActive = true)
    (hz : ∃ r c : Fin 9, gs.board r c = 0) : checkGameCompletion gs = (gs, some false) := by
  unfold checkGameCompletion
  rw [if_neg (by simp [hactive]), if_pos ((any_zero_iff gs.board).mpr hz)]

theorem checkGameCompletion_of_wrong (gs : GameState) (hactive : gs.gameActive = true)
    (hfull : ∀ r c : Fin 9, gs.board r c ≠ 0)
    (hw : ¬ ∀ r c : Fin 9, gs.board r c = gs.solution r c) :
    checkGameCompletion gs = (gs, some false) := by
  unfold checkGameCompletion
  have hz : ¬ allCells.any (fun p => gs.board p.1 p.2 == 0) = true := by
    rw [any_zero_iff]
    rintro ⟨r, c, h⟩
    exact hfull r c h
  rw [if_neg (by simp [hactive]), if_neg hz, if_neg (fun h => hw ((isBoardCorrect_iff gs).mp h))]

theorem checkGameCompletion_of_won (gs : GameState) (hactive : gs.gameActive = true)
    (hfull : ∀ r c : Fin 9, gs.board r c ≠ 0)
    (hc : ∀ r c : Fin 9, gs.board r c = gs.solution r c) :
    checkGameCompletion gs =
      (if bestTimeBeaten { gs with gameActive := false, gamesWon := gs.gamesWon + 1,
                                   timerInterval := false }
        then { gs with gameActive := false, gamesWon := gs.gamesWon + 1,
                       timerInterval := false, bestTime := some gs.timer }
        else { gs with gameActive := false, gamesWon := gs.gamesWon + 1,
                       timerInterval := false }, some true) := by
  unfold checkGameCompletion
  have hz : ¬ allCells.any (fun p => gs.board p.1 p.2 == 0) = true := by
    rw [any_zero_iff]
    rintro ⟨r, c, h⟩
    exact hfull r c h
  rw [if_neg (by simp [hactive]), if_neg hz, if_pos ((isBoardCorrect_iff gs).mpr hc)]

/-- C9: in an active session `checkGameCompletion` returns true exactly when
the board has no zero cell and equals the solution cell for cell (and false
otherwise); on true the session is deactivated and `gamesWon` grows by one; on
false `gameActive`, `gamesWon`, `bestTime` and the three grids are unchanged. -/
theorem checkGameCompletion_spec (gs : GameState) (hactive : gs.gameActive = true) :
    ((checkGameCompletion gs).2 = some true ∨ (checkGameCompletion gs).2 = some false) ∧
    ((checkGameCompletion gs).2 = some true ↔
      (∀ r c : Fin 9, gs.board r c ≠ 0) ∧ ∀ r c : Fin 9, gs.board r c = gs.solution r c) ∧
    ((checkGameCompletion gs).2 = some true →
      (checkGameCompletion gs).1.gameActive = false ∧
      (checkGameCompletion gs).1.gamesWon = gs.gamesWon + 1) ∧
    ((checkGameCompletion gs).2 = some false →
      (checkGameCompletion gs).1.gameActive = gs.gameActive ∧
      (checkGameCompletion gs).1.gamesWon = gs.gamesWon ∧
      (checkGameCompletion gs).1.bestTime = gs.bestTime ∧
      (checkGameCompletion gs).1.board = gs.board ∧
      (checkGameCompletion gs).1.solution = gs.solution ∧
      (checkGameCompletion gs).1.initialBoard = gs.initialBoard) := by
  have hfalse : (checkGameCompletion gs).2 = some false → (checkGameCompletion gs).1 = gs :=
    fun h => checkGameCompletion_not_won gs (by rw [h]; decide)
  by_cases hfull : ∀ r c : Fin 9, gs.board r c ≠ 0
  · by_cases hc : ∀ r c : Fin 9, gs.board r c = gs.solution r c
    · have hwon := checkGameCompletion_of_won gs hactive hfull hc
      refine ⟨Or.inl (by rw [hwon]), ⟨fun _ => ⟨hfull, hc⟩, fun _ => by rw [hwon]⟩, ?_,
        fun h => by rw [hfalse h]; simp⟩
      intro _
      rw [hwon]
      constructor <;> split_ifs <;> rfl
    · have hw := checkGameCompletion_of_wrong gs hactive hfull hc
      refine ⟨Or.inr (by rw [hw]), ⟨fun h => ?_, fun h => absurd h.2 hc⟩, fun h => ?_,
        fun h => by rw [hfalse h]; simp⟩
      · rw [hw] at h; simp at h
      · rw [hw] at h; simp at h
  · have hz : ∃ r c : Fin 9, gs.board r c = 0 := by
      by_contra hcon
      push_neg at hcon
      exact hfull hcon
    have hw := checkGameCompletion_of_zero gs hactive hz
    refine ⟨Or.inr (by rw [hw]), ⟨fun h => ?_, fun h => absurd h.1 hfull⟩, fun h => ?_,
      fun h => by rw [hfalse h]; simp⟩
    · rw [hw] at h; simp at h
    · rw [hw] at h; simp at h

/-- Witness for C9: the sample session, whose board equals its solution. -/
theorem checkGameCompletion_spec_witness :
    (checkGameCompletion sampleState).2 = some true ∨
    (checkGameCompletion sampleState).2 = some false :=
  (checkGameCompletion_spec sampleState rfl).1

theorem checkGameCompletion_board (gs : GameState) :
    (checkGameCompletion gs).1.board = gs.board := by
  unfold checkGameCompletion
  dsimp only
  split_ifs <;> rfl

theorem inputNumber_eq (gs : GameState) (r c : Fin 9) (n : Nat)
    (hsel : gs.selectedCell = some (r, c)) (hactive : gs.gameActive = true)
    (hinit : gs.initialBoard r c = 0) (hnotes : gs.notesMode = false) :
    inputNumber gs n =
      { (checkGameCompletion
          { gs with board :=
              if gs.board r c = n then setCell gs.board r c 0
              else setCell gs.board r c n }).1 with selectedNumber := some n } := by
  unfold inputNumber
  rw [hsel]
  simp only [hactive, hinit, hnotes, Bool.not_true, Bool.false_eq_true, if_false, ne_eq,
    not_true_eq_false]

/-- C10: in an active session with notes mode off, a selected non-given cell
holding the digit `d`: `inputNumber(d)` clears the cell and leaves the session
active; a second `inputNumber(d)` puts `d` back; no other cell of the board
changes in either step. -/
theorem inputNumber_toggle (gs : GameState) (r c : Fin 9) (d : Nat)
    (hactive : gs.gameActive = true) (hnotes : gs.notesMode = false)
    (hsel : gs.selectedCell = some (r, c)) (hinit : gs.initialBoard r c = 0)
    (hd : gs.board r c = d) (h1 : 1 ≤ d) (h9 : d ≤ 9) :
    (inputNumber gs d).board r c = 0 ∧
    (inputNumber gs d).gameActive = true ∧
    (∀ r' c' : Fin 9, (r' ≠ r ∨ c' ≠ c) → (inputNumber gs d).board r' c' = gs.board r' c') ∧
    (inputNumber (inputNumber gs d) d).board r c = d ∧
    (∀ r' c' : Fin 9, (r' ≠ r ∨ c' ≠ c) →
      (inputNumber (inputNumber gs d) d).board r' c' = (inputNumber gs d).board r' c') := by
  have hz := checkGameCompletion_of_zero { gs with board := setCell gs.board r c 0 } hactive
    ⟨r, c, setCell_same gs.board r c 0⟩
  have step1 : inputNumber gs d =
      { gs with board := setCell gs.board r c 0, selectedNumber := some d } := by
    rw [inputNumber_eq gs r c d hsel hactive hinit hnotes, if_pos hd, hz]
  have hne : ¬ setCell gs.board r c 0 r c = d := by
    rw [setCell_same]; omega
  have step2 : (inputNumber (inputNumber gs d) d).board =
      setCell (setCell gs.board r c 0) r c d := by
    have e2 := inputNumber_eq
      ({ gs with board := setCell gs.board r c 0, selectedNumber := some d } : GameState)
      r c d hsel hactive hinit hnotes
    rw [step1, e2]
    simp only [checkGameCompletion_board, if_neg hne]
  refine ⟨?_, ?_, ?_, ?_, ?_⟩
  · rw [step1]; exact setCell_same _ _ _ _
  · rw [step1]; exact hactive
  · intro r' c' h
    rw [step1]; exact setCell_other _ _ _ _ _ _ h
  · rw [step2]; exact setCell_same _ _ _ _
  · intro r' c' h
    rw [step2, step1, setCell_other _ _ _ _ _ _ h]

/-- Witness for C10: the sample session, whose selected cell (0,0) holds 5. -/
theorem inputNumber_toggle_witness :
    (inputNumber sampleState 5).board 0 0 = 0 ∧
    (inputNumber (inputNumber sampleState 5) 5).board 0 0 = 5 :=
  have h := inputNumber_toggle sampleState 0 0 5 rfl rfl rfl (by decide) (by decide)
    (by decide) (by decide)
  ⟨h.1, h.2.2.2.1⟩

/-! ## Empty cells -/

theorem findEmpty_some {b : Grid} {r c : Fin 9} (h : findEmpty b = some (r, c)) :
    b r c = 0 := by
  have := List.find?_some h
  simpa using this

theorem findEmpty_none {b : Grid} (h : findEmpty b = none) : ∀ r c : Fin 9, b r c ≠ 0 := by
  intro r c h0
  have := (List.find?_eq_none.mp h) (r, c) (mem_allCells _)
  simp [h0] at this

theorem findEmpty_eq_none_of_full {b : Grid} (h : ∀ r c : Fin 9, b r c ≠ 0) :
    findEmpty b = none := by
  apply List.find?_eq_none.mpr
  intro p _
  simp [h p.1 p.2]

theorem setCell_setCell (b : Grid) (r c : Fin 9) (v w : Nat) :
    setCell (setCell b r c v) r c w = setCell b r c w := by
  funext r' c'
  simp only [setCell]
  split_ifs <;> rfl

theorem setCell_self (b : Grid) (r c : Fin 9) : setCell b r c (b r c) = b := by
  funext r' c'
  simp only [setCell]
  split_ifs with h
  · rw [h.1, h.2]
  · rfl

theorem setCell_clear {b : Grid} {r c : Fin 9} (h : b r c = 0) (v : Nat) :
    setCell (setCell b r c v) r c 0 = b := by
  rw [setCell_setCell, ← h, setCell_self]

theorem zeroCount_le (b : Grid) : zeroCount b ≤ 81 := by
  unfold zeroCount
  calc (Finset.univ.filter fun p : Fin 9 × Fin 9 => b p.1 p.2 = 0).card
      ≤ (Finset.univ : Finset (Fin 9 × Fin 9)).card := Finset.card_filter_le _ _
    _ = 81 := by simp

/-- Filling an empty cell with a non-zero value removes one zero cell. -/
theorem zeroCount_setCell_fill {b : Grid} {r c : Fin 9} (h : b r c = 0) {v : Nat}
    (hv : v ≠ 0) : zeroCount (setCell b r c v) + 1 = zeroCount b := by
  unfold zeroCount
  have hmem : (r, c) ∈ Finset.univ.filter fun p : Fin 9 × Fin 9 => b p.1 p.2 = 0 := by
    simp [h]
  have heq : (Finset.univ.filter fun p : Fin 9 × Fin 9 => setCell b r c v p.1 p.2 = 0) =
      (Finset.univ.filter fun p : Fin 9 × Fin 9 => b p.1 p.2 = 0).erase (r, c) := by
    ext ⟨r', c'⟩
    simp only [Finset.mem_filter, Finset.mem_univ, true_and, Finset.mem_erase, ne_eq,
      Prod.mk.injEq]
    by_cases hrc : r' = r ∧ c' = c
    · obtain ⟨h1, h2⟩ := hrc
      subst h1; subst h2
      simp [setCell_same, hv]
    · have hne : r' ≠ r ∨ c' ≠ c := by
        by_contra hcon
        push_neg at hcon
        exact hrc hcon
      rw [setCell_other _ _ _ _ _ _ hne]
      simp [hrc]
  rw [heq, Finset.card_erase_of_mem hmem]
  have : 0 < (Finset.univ.filter fun p : Fin 9 × Fin 9 => b p.1 p.2 = 0).card :=
    Finset.card_pos.mpr ⟨_, hmem⟩
  omega

/-- Emptying a filled cell adds one zero cell. -/
theorem zeroCount_setCell_clear {b : Grid} {r c : Fin 9} (h : b r c ≠ 0) :
    zeroCount (setCell b r c 0) = zeroCount b + 1 := by
  have h0 : setCell b r c 0 r c = 0 := setCell_same _ _ _ _
  have := zeroCount_setCell_fill h0 h
  rw [setCell_setCell, setCell_self] at this
  omega

theorem mem_digits_iff (d : Nat) : d ∈ digits ↔ 1 ≤ d ∧ d ≤ 9 := by
  simp only [digits, List.mem_cons, List.mem_singleton, List.not_mem_nil, or_false]
  omega

theorem digits_ne_zero {d : Nat} (h : d ∈ digits) : d ≠ 0 := by
  rw [mem_digits_iff] at h; omega

/-! ## The solution counter always returns and restores the board -/

theorem backtrackLoop_total (recur : Grid → Nat → Option (Grid × Nat)) (maxSolutions : Nat)
    (b : Grid) (r c : Fin 9) (hb : b r c = 0) :
    ∀ (nums : List Nat),
      (∀ num ∈ nums, ∀ s, ∃ s', recur (setCell b r c num) s = some (setCell b r c num, s')) →
      ∀ s, ∃ s', backtrackLoop recur maxSolutions r c nums b s = some (b, s') := by
  intro nums
  induction nums with
  | nil => intro _ s; exact ⟨s, rfl⟩
  | cons num rest ih =>
    intro hrec s
    have ih' := ih (fun n hn => hrec n (List.mem_cons_of_mem _ hn))
    simp only [backtrackLoop]
    split_ifs with hv
    · obtain ⟨s', hs'⟩ := hrec num (List.mem_cons_self _ _) s
      rw [hs']
      simp only [setCell_clear hb]
      split_ifs
      · exact ⟨s', rfl⟩
      · exact ih' s'
    · exact ih' s

theorem backtrack_total (maxSolutions : Nat) :
    ∀ (fuel : Nat) (b : Grid) (s : Nat), zeroCount b < fuel →
      ∃ s', backtrack maxSolutions fuel b s = some (b, s') := by
  intro fuel
  induction fuel with
  | zero => intro b s h; omega
  | succ fuel ih =>
    intro b s h
    simp only [backtrack]
    cases hfe : findEmpty b with
    | none => exact ⟨s + 1, rfl⟩
    | some p =>
      obtain ⟨r, c⟩ := p
      have hb := findEmpty_some hfe
      apply backtrackLoop_total _ _ _ _ _ hb
      intro num hnum s0
      apply ih
      have := zeroCount_setCell_fill hb (digits_ne_zero hnum)
      omega

/-- The call `countSolutions(board, maxSolutions)` returns a number and
leaves the board as it found it. -/
theorem countSolutionsState_total (board : Grid) (maxSolutions : Nat) :
    ∃ n, countSolutionsState board maxSolutions = some (board, n) :=
  backtrack_total maxSolutions 82 board 0 (by have := zeroCount_le board; omega)

theorem countSolutions_total (board : Grid) (maxSolutions : Nat) :
    ∃ n, countSolutions board maxSolutions = some n := by
  obtain ⟨n, hn⟩ := countSolutionsState_total board maxSolutions
  exact ⟨n, by simp [countSolutions, hn]⟩

/-- On a board without empty cell the counter finds its one leaf. -/
theorem countSolutions_full {board : Grid} (h : ∀ r c : Fin 9, board r c ≠ 0)
    (maxSolutions : Nat) : countSolutions board maxSolutions = some 1 := by
  simp [countSolutions, countSolutionsState, backtrack, findEmpty_eq_none_of_full h]

/-! ## The carving loop -/

theorem carveInv_start (rng : Rng) (gs : GameState) (T : Nat) :
    CarveInv gs T (carveStart rng gs) where
  frame := rfl
  initial_eq := rfl
  cell := fun _ _ => Or.inr rfl
  removed_le := Nat.zero_le _
  attempts_le := Nat.zero_le _
  done_attempts := fun _ => rfl
  trace_fail := fun i hi => absurd hi (Nat.not_lt_zero i)
  trace_len := Nat.zero_le _
  zeros := fun hfull => by
    show zeroCount gs.solution = 0
    unfold zeroCount
    rw [Finset.card_eq_zero, Finset.filter_eq_empty_iff]
    intro p _
    exact hfull p.1 p.2
  unique := fun hfull => countSolutions_full hfull 2

/-- One iteration of the carving loop keeps the invariant, adds one entry to
the record of iterations and lowers the progress measure. -/
theorem carveBody_spec (gs0 : GameState) (T : Nat) (cs : CarveState)
    (inv : CarveInv gs0 T cs) (hrem : cs.removed < T) (hatt : cs.attempts < maxAttempts) :
    ∃ cs', carveBody cs = some cs' ∧ CarveInv gs0 T cs' ∧
      cs'.trace.length = cs.trace.length + 1 ∧ carveMeasure T cs' < carveMeasure T cs := by
  have hmeasure_fail : maxAttempts * (T - cs.removed) - (cs.attempts + 1) <
      maxAttempts * (T - cs.removed) - cs.attempts := by
    have : maxAttempts * 1 ≤ maxAttempts * (T - cs.removed) :=
      Nat.mul_le_mul_left _ (by omega)
    omega
  have htrace_fail : ∀ i, i < cs.attempts + 1 → (false :: cs.trace).get? i = some false := by
    intro i hi
    cases i with
    | zero => rfl
    | succ i => exact inv.trace_fail i (by omega)
  unfold carveBody
  by_cases h0 : cs.gs.board (drawIndex (cs.rng 0)) (drawIndex (cs.rng 1)) = 0
  · simp only [h0, if_true]
    refine ⟨_, rfl, ?_, by simp, hmeasure_fail⟩
    exact
      { frame := inv.frame
        initial_eq := inv.initial_eq
        cell := inv.cell
        removed_le := inv.removed_le
        attempts_le := hatt
        done_attempts := fun h => absurd h (Nat.ne_of_lt hrem)
        trace_fail := htrace_fail
        trace_len := by
          have := inv.trace_len
          simp only [List.length_cons]
          omega
        zeros := inv.zeros
        unique := inv.unique }
  · simp only [h0, if_false]
    obtain ⟨n, hn⟩ := countSolutions_total
      (setCell cs.gs.board (drawIndex (cs.rng 0)) (drawIndex (cs.rng 1)) 0) 2
    rw [hn]
    by_cases h1 : n = 1
    · simp only [h1, if_true]
      refine ⟨_, rfl, ?_, by simp, ?_⟩
      · exact
          { frame := by
              have := inv.frame
              rw [this]
            initial_eq := by
              show setCell cs.gs.initialBoard _ _ 0 = setCell cs.gs.board _ _ 0
              rw [inv.initial_eq]
            cell := fun r c => by
              show setCell cs.gs.board _ _ 0 r c = 0 ∨ setCell cs.gs.board _ _ 0 r c = _
              simp only [setCell]
              split_ifs
              · exact Or.inl rfl
              · exact inv.cell r c
            removed_le := hrem
            attempts_le := Nat.zero_le _
            done_attempts := fun _ => rfl
            trace_fail := fun i hi => absurd hi (Nat.not_lt_zero i)
            trace_len := by
              have := inv.trace_len
              have h200 : maxAttempts = 200 := rfl
              simp only [List.length_cons]
              rw [h200] at hatt this ⊢
              omega
            zeros := fun hfull => by
              show zeroCount (setCell cs.gs.board _ _ 0) = cs.removed + 1
              rw [zeroCount_setCell_clear h0, inv.zeros hfull]
            unique := fun _ => by
              show countSolutions (setCell cs.gs.board _ _ 0) 2 = some 1
              rw [hn, h1] }
      · show maxAttempts * (T - (cs.removed + 1)) - 0 < maxAttempts * (T - cs.removed) - cs.attempts
        have h200 : maxAttempts = 200 := rfl
        rw [h200] at hatt ⊢
        have : T - cs.removed = (T - (cs.removed + 1)) + 1 := by omega
        rw [this]
        omega
    · simp only [h1, if_false]
      have hrestore : ∀ g : Grid, setCell (setCell g (drawIndex (cs.rng 0))
          (drawIndex (cs.rng 1)) 0) (drawIndex (cs.rng 0)) (drawIndex (cs.rng 1))
          (g (drawIndex (cs.rng 0)) (drawIndex (cs.rng 1))) = g := by
        intro g
        rw [setCell_setCell, setCell_self]
      have hb : setCell (setCell cs.gs.board (drawIndex (cs.rng 0)) (drawIndex (cs.rng 1)) 0)
          (drawIndex (cs.rng 0)) (drawIndex (cs.rng 1))
          (cs.gs.board (drawIndex (cs.rng 0)) (drawIndex (cs.rng 1))) = cs.gs.board :=
        hrestore _
      have hi : setCell (setCell cs.gs.initialBoard (drawIndex (cs.rng 0))
          (drawIndex (cs.rng 1)) 0) (drawIndex (cs.rng 0)) (drawIndex (cs.rng 1))
          (cs.gs.board (drawIndex (cs.rng 0)) (drawIndex (cs.rng 1))) = cs.gs.initialBoard := by
        have := hrestore cs.gs.initialBoard
        rw [inv.initial_eq] at this ⊢
        exact this
      rw [hb, hi]
      refine ⟨_, rfl, ?_, by simp, hmeasure_fail⟩
      exact
        { frame := inv.frame
          initial_eq := inv.initial_eq
          cell := inv.cell
          removed_le := inv.removed_le
          attempts_le := hatt
          done_attempts := fun h => absurd h (Nat.ne_of_lt hrem)
          trace_fail := htrace_fail
          trace_len := by
            have := inv.trace_len
            simp only [List.length_cons]
            omega
          zeros := inv.zeros
          unique := inv.unique }

/-- With a budget above the progress measure the carving loop exits, in a
state that satisfies the invariant and fails the loop condition. -/
theorem carveLoop_spec (gs0 : GameState) (T : Nat) :
    ∀ (fuel : Nat) (cs : CarveState), CarveInv gs0 T cs → carveMeasure T cs < fuel →
      ∃ cs', carveLoop T fuel cs = some cs' ∧ CarveInv gs0 T cs' ∧
        ¬ (cs'.removed < T ∧ cs'.attempts < maxAttempts) := by
  intro fuel
  induction fuel with
  | zero => intro cs _ h; omega
  | succ fuel ih =>
    intro cs inv hm
    simp only [carveLoop]
    by_cases hc : cs.removed < T ∧ cs.attempts < maxAttempts
    · rw [if_pos hc]
      obtain ⟨cs1, h1, inv1, _, hlt⟩ := carveBody_spec gs0 T cs inv hc.1 hc.2
      rw [h1]
      exact ih cs1 inv1 (by omega)
    · rw [if_neg hc]
      exact ⟨cs, rfl, inv, hc⟩

/-- The function `createPuzzle` returns, for every target, in a state that
satisfies the loop invariant and fails the loop condition. -/
theorem createPuzzleWith_spec (T : Nat) (rng : Rng) (gs : GameState) :
    ∃ cs, createPuzzleWith T rng gs = some cs ∧ CarveInv gs T cs ∧
      ¬ (cs.removed < T ∧ cs.attempts < maxAttempts) := by
  apply carveLoop_spec gs T _ _ (carveInv_start rng gs T)
  show maxAttempts * (T - 0) - 0 < maxAttempts * T + 1
  simp

/-- A larger budget does not change the result of the carving loop. -/
theorem carveLoop_fuel_mono (T : Nat) :
    ∀ (fuel : Nat) (cs cs' : CarveState), carveLoop T fuel cs = some cs' →
      ∀ extra : Nat, carveLoop T (fuel + extra) cs = some cs' := by
  intro fuel
  induction fuel with
  | zero => intro cs cs' h; simp [carveLoop] at h
  | succ fuel ih =>
    intro cs cs' h extra
    rw [Nat.add_right_comm]
    simp only [carveLoop] at h ⊢
    split_ifs at h ⊢ with hc
    · cases hb : carveBody cs with
      | none => rw [hb] at h; simp at h
      | some cs1 =>
        rw [hb] at h
        exact ih cs1 cs' h extra
    · exact h

/-- C2: for every fully filled solution grid, every difficulty and every
random stream, `createPuzzle` returns and `countSolutions` of (a copy of) the
board it leaves, with cutoff 2, is 1. -/
theorem createPuzzle_unique (rng : Rng) (gs : GameState)
    (hfull : ∀ r c : Fin 9, gs.solution r c ≠ 0) :
    ∃ cs, createPuzzle rng gs = some cs ∧ countSolutions cs.gs.board 2 = some 1 := by
  obtain ⟨cs, hcs, inv, _⟩ := createPuzzleWith_spec (difficultySettings gs.difficulty) rng gs
  exact ⟨cs, hcs, inv.unique hfull⟩

/-- Witness for C2: the sample session with a constant random stream. -/
theorem createPuzzle_unique_witness :
    ∃ cs, createPuzzle (fun _ => 0) sampleState = some cs ∧
      countSolutions cs.gs.board 2 = some 1 :=
  createPuzzle_unique (fun _ => 0) sampleState (by decide)

/-- C4: for a fully filled solution, after `createPuzzle` the solution is
unchanged, every cell of `board` equals the cell of `initialBoard` and is 0 or
the solution digit, the number of zero cells is the final `removed`, which is
at most the target; and writing the solution digit into every zero cell gives
a board that `isBoardCorrect` accepts. -/
theorem createPuzzle_grids (rng : Rng) (gs : GameState)
    (hfull : ∀ r c : Fin 9, gs.solution r c ≠ 0) :
    ∃ cs, createPuzzle rng gs = some cs ∧
      cs.gs.solution = gs.solution ∧
      (∀ r c : Fin 9, cs.gs.board r c = cs.gs.initialBoard r c ∧
        (cs.gs.board r c = 0 ∨ cs.gs.board r c = cs.gs.solution r c)) ∧
      zeroCount cs.gs.board = cs.removed ∧
      cs.removed ≤ difficultySettings gs.difficulty ∧
      isBoardCorrect { cs.gs with board := fillZeros cs.gs.board cs.gs.solution } = true := by
  obtain ⟨cs, hcs, inv, _⟩ := createPuzzleWith_spec (difficultySettings gs.difficulty) rng gs
  have hsol : cs.gs.solution = gs.solution := by rw [inv.frame]
  refine ⟨cs, hcs, hsol, ?_, inv.zeros hfull, inv.removed_le, ?_⟩
  · intro r c
    rw [inv.initial_eq, hsol]
    exact ⟨rfl, inv.cell r c⟩
  · rw [isBoardCorrect_iff]
    intro r c
    show fillZeros cs.gs.board cs.gs.solution r c = cs.gs.solution r c
    unfold fillZeros
    split_ifs with h0
    · rfl
    · rcases inv.cell r c with h | h
      · exact absurd h h0
      · rw [h, hsol]

/-- Witness for C4: the sample session with a constant random stream. -/
theorem createPuzzle_grids_witness :
    ∃ cs, createPuzzle (fun _ => 0) sampleState = some cs ∧
      zeroCount cs.gs.board = cs.removed ∧ cs.removed ≤ 40 :=
  have ⟨cs, h, _, _, hz, hr, _⟩ := createPuzzle_grids (fun _ => 0) sampleState (by decide)
  ⟨cs, h, hz, hr⟩

/-- C5: for every session (every solution grid and difficulty) and every
random stream the carving loop of `createPuzzle` terminates; at exit
`removed` is the target or `attempts` is 200, and in the latter case the last
200 iterations were all failures. -/
theorem createPuzzle_terminates (rng : Rng) (gs : GameState) :
    ∃ cs, createPuzzle rng gs = some cs ∧
      (cs.removed = difficultySettings gs.difficulty ∨ cs.attempts = 200) ∧
      (cs.attempts = 200 →
        200 ≤ cs.trace.length ∧ ∀ i, i < 200 → cs.trace.get? i = some false) := by
  obtain ⟨cs, hcs, inv, hexit⟩ := createPuzzleWith_spec (difficultySettings gs.difficulty) rng gs
  refine ⟨cs, hcs, ?_, ?_⟩
  · have h1 := inv.removed_le
    have h2 : cs.attempts ≤ 200 := inv.attempts_le
    have h3 : ¬ (cs.removed < difficultySettings gs.difficulty ∧ cs.attempts < 200) := hexit
    omega
  · intro h200
    have hf : ∀ i, i < 200 → cs.trace.get? i = some false := by
      intro i hi
      exact inv.trace_fail i (by omega)
    refine ⟨?_, hf⟩
    by_contra hlen
    have h199 := hf 199 (by omega)
    have hnone : cs.trace.get? 199 = none := List.get?_eq_none.mpr (by omega)
    rw [hnone] at h199
    simp at h199

/-- C6, amended: the body of the carving loop is executed at most
`200 * T` times, `T` being the target of the difficulty. -/
theorem createPuzzle_iterations (rng : Rng) (gs : GameState) :
    ∃ cs, createPuzzle rng gs = some cs ∧
      cs.trace.length ≤ 200 * difficultySettings gs.difficulty := by
  obtain ⟨cs, hcs, inv, hexit⟩ := createPuzzleWith_spec (difficultySettings gs.difficulty) rng gs
  refine ⟨cs, hcs, ?_⟩
  have h1 := inv.removed_le
  have h2 : cs.attempts ≤ 200 := inv.attempts_le
  have h3 : ¬ (cs.removed < difficultySettings gs.difficulty ∧ cs.attempts < 200) := hexit
  have h4 := inv.done_attempts
  have h5 : cs.trace.length ≤ 200 * cs.removed + cs.attempts := inv.trace_len
  by_cases hT : cs.removed = difficultySettings gs.difficulty
  · rw [h4 hT, hT] at h5
    omega
  · have : cs.removed + 1 ≤ difficultySettings gs.difficulty := by omega
    have : 200 * (cs.removed + 1) ≤ 200 * difficultySettings gs.difficulty :=
      Nat.mul_le_mul_left _ this
    omega

set_option maxRecDepth 1000000 in
set_option maxHeartbeats 4000000 in
/-- C6 as stated fails: on the sample solution with difficulty easy (target
40) and the picks (0,0) x 200, (0,1), (0,0) x 200 the loop body runs 401 times,
more than 40 + 200: one removal, 199 picks of the emptied cell, a second
removal (which resets `attempts`), then 200 picks of an empty cell. -/
theorem createPuzzle_iterations_counterexample :
    ∃ cs, createPuzzle stallRng sampleState = some cs ∧
      cs.trace.length = 401 ∧
      ¬ (cs.trace.length ≤ difficultySettings sampleState.difficulty + 200) := by
  have h : (createPuzzle stallRng sampleState).map (fun cs => cs.trace.length) = some 401 := by
    decide
  obtain ⟨cs, hcs, hl⟩ := Option.map_eq_some'.mp h
  refine ⟨cs, hcs, hl, ?_⟩
  rw [hl]
  decide

/-! ## Units of a valid grid -/

/-- Nine distinct digits fill a unit with each digit exactly once. -/
theorem unit_once_of_injective (f : Fin 9 → Nat) (hinj : Function.Injective f)
    (hrange : ∀ k, f k ∈ digits) :
    ∀ d ∈ digits, (Finset.univ.filter fun k : Fin 9 => f k = d).card = 1 := by
  intro d hd
  have hr : ∀ k, 1 ≤ f k ∧ f k ≤ 9 := fun k => (mem_digits_iff _).mp (hrange k)
  let F : Fin 9 → Fin 9 := fun k => ⟨f k - 1, by have := hr k; omega⟩
  have hF : Function.Injective F := by
    intro a b hab
    apply hinj
    have h1 := hr a
    have h2 := hr b
    have : f a - 1 = f b - 1 := congrArg Fin.val hab
    omega
  have hd' := (mem_digits_iff d).mp hd
  obtain ⟨k, hk⟩ := (Finite.injective_iff_surjective.mp hF) ⟨d - 1, by omega⟩
  have hfk : f k = d := by
    have h1 := hr k
    have : f k - 1 = d - 1 := congrArg Fin.val hk
    omega
  rw [Finset.card_eq_one]
  refine ⟨k, ?_⟩
  ext k'
  simp only [Finset.mem_filter, Finset.mem_univ, true_and, Finset.mem_singleton]
  constructor
  · intro h
    exact hinj (h.trans hfk.symm)
  · intro h
    rw [h, hfk]

/-- A unit that holds each digit exactly once holds nine distinct digits. -/
theorem unit_injective_of_once (f : Fin 9 → Nat)
    (h : ∀ d ∈ digits, (Finset.univ.filter fun k : Fin 9 => f k = d).card = 1) :
    (∀ k, f k ∈ digits) ∧ Function.Injective f := by
  have hd : ∀ d' : Fin 9, d'.val + 1 ∈ digits := fun d' =>
    (mem_digits_iff _).mpr ⟨by omega, by omega⟩
  choose G hG using fun d' : Fin 9 => Finset.card_eq_one.mp (h (d'.val + 1) (hd d'))
  have hfG : ∀ d' : Fin 9, f (G d') = d'.val + 1 := by
    intro d'
    have : G d' ∈ Finset.univ.filter fun k : Fin 9 => f k = d'.val + 1 := by
      rw [hG d']; exact Finset.mem_singleton_self _
    simpa using this
  have hGinj : Function.Injective G := by
    intro a b hab
    have h1 := hfG a
    have h2 := hfG b
    rw [hab] at h1
    apply Fin.ext
    omega
  have hGsurj := Finite.injective_iff_surjective.mp hGinj
  have hrange : ∀ k, f k ∈ digits := by
    intro k
    obtain ⟨d', hd'⟩ := hGsurj k
    rw [← hd', hfG d']
    exact hd d'
  refine ⟨hrange, ?_⟩
  intro a b hab
  obtain ⟨da, hda⟩ := hGsurj a
  obtain ⟨db, hdb⟩ := hGsurj b
  have h1 := hfG da
  have h2 := hfG db
  rw [hda] at h1
  rw [hdb] at h2
  have : da = db := by
    apply Fin.ext
    omega
  rw [← hda, ← hdb, this]

theorem boxCell_injective (u : Fin 9) : Function.Injective (boxCell u) := by
  intro a b hab
  simp only [boxCell, Prod.mk.injEq, Fin.mk.injEq] at hab
  apply Fin.ext
  omega

theorem boxCell_sameUnit (u a b : Fin 9) :
    SameUnit (boxCell u a).1 (boxCell u a).2 (boxCell u b).1 (boxCell u b).2 := by
  refine Or.inr (Or.inr ⟨?_, ?_⟩) <;> simp only [boxCell] <;> omega

theorem boxCell_div (u k : Fin 9) :
    (boxCell u k).1.val / 3 = u.val / 3 ∧ (boxCell u k).2.val / 3 = u.val % 3 := by
  simp only [boxCell]
  constructor <;> omega

/-- Every cell is a cell of its box. -/
theorem boxCell_of_cell (r c : Fin 9) :
    boxCell ⟨3 * (r.val / 3) + c.val / 3, by omega⟩ ⟨3 * (r.val % 3) + c.val % 3, by omega⟩
      = (r, c) := by
  simp only [boxCell, Prod.mk.injEq]
  constructor <;> apply Fin.ext <;> simp only <;> omega

/-- A full, conflict-free grid with cells at most 9 is a valid solution. -/
theorem isValidSolution_of_conflictFree {g : Grid} (hfull : ∀ r c : Fin 9, g r c ≠ 0)
    (hcf : ConflictFree g) (h9 : ∀ r c : Fin 9, g r c ≤ 9) : IsValidSolution g := by
  have hrange : ∀ r c : Fin 9, g r c ∈ digits := fun r c =>
    (mem_digits_iff _).mpr ⟨Nat.pos_of_ne_zero (hfull r c), h9 r c⟩
  refine ⟨hfull, fun u d hd => ⟨?_, ?_, ?_⟩⟩
  · apply unit_once_of_injective (fun k => g (rowCell u k).1 (rowCell u k).2) _
      (fun k => hrange _ _) d hd
    intro a b hab
    by_contra hne
    exact hcf u a u b (Or.inr hne) (Or.inl rfl) (hfull _ _) hab
  · apply unit_once_of_injective (fun k => g (colCell u k).1 (colCell u k).2) _
      (fun k => hrange _ _) d hd
    intro a b hab
    by_contra hne
    exact hcf a u b u (Or.inl hne) (Or.inr (Or.inl rfl)) (hfull _ _) hab
  · apply unit_once_of_injective (fun k => g (boxCell u k).1 (boxCell u k).2) _
      (fun k => hrange _ _) d hd
    intro a b hab
    by_contra hne
    have hcell : boxCell u a ≠ boxCell u b := fun h => hne (boxCell_injective u h)
    have hne' : (boxCell u a).1 ≠ (boxCell u b).1 ∨ (boxCell u a).2 ≠ (boxCell u b).2 := by
      by_contra hcon
      push_neg at hcon
      exact hcell (Prod.ext hcon.1 hcon.2)
    exact hcf _ _ _ _ hne' (boxCell_sameUnit u a b) (hfull _ _) hab

/-- The cells of a valid solution are digits 1..9. -/
theorem IsValidSolution.mem_digits {g : Grid} (h : IsValidSolution g) (r c : Fin 9) :
    g r c ∈ digits :=
  (unit_injective_of_once (fun k => g (rowCell r k).1 (rowCell r k).2)
    (fun d hd => (h.2 r d hd).1)).1 c

/-- A valid solution is conflict-free. -/
theorem IsValidSolution.conflictFree {g : Grid} (h : IsValidSolution g) : ConflictFree g := by
  intro r c r' c' hne hu _ heq
  rcases hu with hu | hu | ⟨hr, hc⟩
  · subst hu
    have hinj := (unit_injective_of_once (fun k => g (rowCell r k).1 (rowCell r k).2)
      (fun d hd => (h.2 r d hd).1)).2
    have : c = c' := hinj heq
    rcases hne with h1 | h1
    · exact h1 rfl
    · exact h1 this
  · subst hu
    have hinj := (unit_injective_of_once (fun k => g (colCell c k).1 (colCell c k).2)
      (fun d hd => (h.2 c d hd).2.1)).2
    have : r = r' := hinj heq
    rcases hne with h1 | h1
    · exact h1 this
    · exact h1 rfl
  · obtain ⟨u, k, huk⟩ : ∃ u k, boxCell u k = (r, c) := ⟨_, _, boxCell_of_cell r c⟩
    obtain ⟨u', k', huk'⟩ : ∃ u k, boxCell u k = (r', c') := ⟨_, _, boxCell_of_cell r' c'⟩
    have hr1 : r = (boxCell u k).1 := by rw [huk]
    have hc1 : c = (boxCell u k).2 := by rw [huk]
    have hr2 : r' = (boxCell u' k').1 := by rw [huk']
    have hc2 : c' = (boxCell u' k').2 := by rw [huk']
    have huu : u' = u := by
      have a1 := boxCell_div u k
      have a2 := boxCell_div u' k'
      rw [← hr1, ← hc1] at a1
      rw [← hr2, ← hc2] at a2
      apply Fin.ext
      omega
    subst huu
    have hinj := (unit_injective_of_once (fun j => g (boxCell u' j).1 (boxCell u' j).2)
      (fun d hd => (h.2 u' d hd).2.2)).2
    have hk : k = k' := by
      apply hinj
      show g (boxCell u' k).1 (boxCell u' k).2 = g (boxCell u' k').1 (boxCell u' k').2
      rw [← hr1, ← hc1, ← hr2, ← hc2]
      exact heq
    subst hk
    rcases hne with h | h
    · exact h (hr1.trans hr2.symm)
    · exact h (hc1.trans hc2.symm)


/-! ## Counting completions -/

/-- A valid placement keeps a conflict-free board conflict-free. -/
theorem ConflictFree.setCell_valid {b : Grid} (hcf : ConflictFree b) {r c : Fin 9} {n : Nat}
    (hv : isValidPlacement b r c n = true) : ConflictFree (setCell b r c n) := by
  rw [isValidPlacement_eq_true_iff] at hv
  have symm : ∀ {a1 a2 b1 b2 : Fin 9}, SameUnit a1 a2 b1 b2 → SameUnit b1 b2 a1 a2 := by
    intro a1 a2 b1 b2 h
    rcases h with h | h | ⟨h1, h2⟩
    · exact Or.inl h.symm
    · exact Or.inr (Or.inl h.symm)
    · exact Or.inr (Or.inr ⟨h1.symm, h2.symm⟩)
  intro r1 c1 r2 c2 hne hu hnz
  by_cases h1 : r1 = r ∧ c1 = c
  · obtain ⟨e1, e2⟩ := h1
    subst e1; subst e2
    have hne2 : r2 ≠ r1 ∨ c2 ≠ c1 := by
      rcases hne with h | h
      · exact Or.inl (Ne.symm h)
      · exact Or.inr (Ne.symm h)
    rw [setCell_same, setCell_other _ _ _ _ _ _ hne2]
    exact Ne.symm (hv r2 c2 hu)
  · have hne1 : r1 ≠ r ∨ c1 ≠ c := by
      by_contra hcon
      push_neg at hcon
      exact h1 hcon
    rw [setCell_other _ _ _ _ _ _ hne1] at hnz ⊢
    by_cases h2 : r2 = r ∧ c2 = c
    · obtain ⟨e1, e2⟩ := h2
      subst e1; subst e2
      rw [setCell_same]
      exact hv r1 c1 (symm hu)
    · have hne2 : r2 ≠ r ∨ c2 ≠ c := by
        by_contra hcon
        push_neg at hcon
        exact h2 hcon
      rw [setCell_other _ _ _ _ _ _ hne2]
      exact hcf r1 c1 r2 c2 hne hu hnz

theorem mem_completions {g : Grid} {s : Fin 9 → Fin 9 → Fin 10} :
    s ∈ completions g ↔ IsValidSolution (toGrid s) ∧ Agrees g (toGrid s) := by
  simp [completions]

theorem agrees_setCell {b : Grid} {r c : Fin 9} (hb : b r c = 0) {n : Nat} (hn : n ≠ 0)
    (t : Grid) : Agrees (setCell b r c n) t ↔ Agrees b t ∧ t r c = n := by
  constructor
  · intro h
    refine ⟨fun r' c' hnz => ?_, ?_⟩
    · have hne : r' ≠ r ∨ c' ≠ c := by
        by_contra hcon
        push_neg at hcon
        rw [hcon.1, hcon.2] at hnz
        exact hnz hb
      have := h r' c'
      rw [setCell_other _ _ _ _ _ _ hne] at this
      exact this hnz
    · have := h r c
      rw [setCell_same] at this
      exact this hn
  · rintro ⟨h1, h2⟩ r' c' hnz
    by_cases hrc : r' = r ∧ c' = c
    · rw [hrc.1, hrc.2, setCell_same]
      exact h2
    · have hne : r' ≠ r ∨ c' ≠ c := by
        by_contra hcon
        push_neg at hcon
        exact hrc hcon
      rw [setCell_other _ _ _ _ _ _ hne] at hnz ⊢
      exact h1 r' c' hnz

/-- The completions of a board with the empty cell `(r, c)` set to `n` are the
completions of the board that hold `n` there. -/
theorem completions_setCell {b : Grid} {r c : Fin 9} (hb : b r c = 0) {n : Nat} (hn : n ≠ 0) :
    completions (setCell b r c n) = (completions b).filter fun s => (s r c).val = n := by
  ext s
  simp only [Finset.mem_filter, mem_completions, agrees_setCell hb hn]
  constructor
  · rintro ⟨h1, h2, h3⟩
    exact ⟨⟨h1, h2⟩, h3⟩
  · rintro ⟨⟨h1, h2⟩, h3⟩
    exact ⟨h1, h2, h3⟩

/-- A placement that the checker rejects has no completion. -/
theorem trueCount_of_invalid {b : Grid} {r c : Fin 9} (hb : b r c = 0) {n : Nat} (hn : n ≠ 0)
    (hv : ¬ isValidPlacement b r c n = true) : trueCount (setCell b r c n) = 0 := by
  rw [Bool.not_eq_true, isValidPlacement_eq_false_iff] at hv
  obtain ⟨r', c', hu, hval⟩ := hv
  have hne : r' ≠ r ∨ c' ≠ c := by
    by_contra hcon
    push_neg at hcon
    rw [hcon.1, hcon.2, hb] at hval
    exact hn hval.symm
  unfold trueCount
  rw [Finset.card_eq_zero, Finset.eq_empty_iff_forall_not_mem]
  intro s hs
  rw [mem_completions] at hs
  obtain ⟨hvalid, hag⟩ := hs
  have h1 : toGrid s r c = n := by
    have := hag r c
    rw [setCell_same] at this
    exact this hn
  have h2 : toGrid s r' c' = n := by
    have := hag r' c'
    rw [setCell_other _ _ _ _ _ _ hne, hval] at this
    exact this hn
  have hne' : r ≠ r' ∨ c ≠ c' := by
    rcases hne with h | h
    · exact Or.inl (Ne.symm h)
    · exact Or.inr (Ne.symm h)
  exact hvalid.conflictFree r c r' c' hne' hu (by rw [h1]; exact hn) (h1.trans h2.symm)

theorem digits_nodup : digits.Nodup := by decide

/-- The completions of a board split by the digit they hold at an empty
cell. -/
theorem trueCount_split {b : Grid} {r c : Fin 9} (hb : b r c = 0) :
    trueCount b = (digits.map fun n => trueCount (setCell b r c n)).sum := by
  have hmaps : ∀ s ∈ completions b, (s r c).val ∈ digits.toFinset := by
    intro s hs
    rw [List.mem_toFinset]
    exact (mem_completions.mp hs).1.mem_digits r c
  unfold trueCount
  rw [Finset.card_eq_sum_card_fiberwise hmaps, List.sum_toFinset _ digits_nodup]
  congr 1
  apply List.map_congr_left
  intro n hn
  rw [completions_setCell hb (digits_ne_zero hn)]

theorem toGrid_injective : Function.Injective toGrid := by
  intro s t h
  funext r c
  apply Fin.ext
  exact congrFun (congrFun h r) c

/-- A valid solution has exactly one completion, itself. -/
theorem trueCount_of_valid {g : Grid} (h : IsValidSolution g) : trueCount g = 1 := by
  unfold trueCount
  rw [Finset.card_eq_one]
  have h9 : ∀ r c : Fin 9, g r c < 10 := fun r c => by
    have := (mem_digits_iff _).mp (h.mem_digits r c)
    omega
  refine ⟨fun r c => ⟨g r c, h9 r c⟩, ?_⟩
  ext s
  rw [mem_completions, Finset.mem_singleton]
  constructor
  · rintro ⟨_, hag⟩
    funext r c
    apply Fin.ext
    exact hag r c (h.1 r c)
  · intro hs
    subst hs
    exact ⟨h, fun _ _ _ => rfl⟩

/-- The digit loop of `backtrack` adds the completion counts of the placements,
capped at `maxSolutions`. -/
theorem backtrackLoop_count (recur : Grid → Nat → Option (Grid × Nat)) (maxSolutions : Nat)
    (b : Grid) (r c : Fin 9) (hb : b r c = 0) :
    ∀ (nums : List Nat),
      (∀ num ∈ nums, isValidPlacement b r c num = true → ∀ s, s < maxSolutions →
        recur (setCell b r c num) s =
          some (setCell b r c num, min maxSolutions (s + trueCount (setCell b r c num)))) →
      (∀ num ∈ nums, ¬ isValidPlacement b r c num = true →
        trueCount (setCell b r c num) = 0) →
      ∀ s, s < maxSolutions →
        backtrackLoop recur maxSolutions r c nums b s =
          some (b, min maxSolutions
            (s + (nums.map fun n => trueCount (setCell b r c n)).sum)) := by
  intro nums
  induction nums with
  | nil =>
    intro _ _ s hs
    simp only [backtrackLoop, List.map_nil, List.sum_nil, Nat.add_zero]
    rw [Nat.min_eq_right (Nat.le_of_lt hs)]
  | cons num rest ih =>
    intro hrec hinv s hs
    have ih' := ih (fun n hn => hrec n (List.mem_cons_of_mem _ hn))
      (fun n hn => hinv n (List.mem_cons_of_mem _ hn))
    simp only [backtrackLoop, List.map_cons, List.sum_cons]
    by_cases hv : isValidPlacement b r c num = true
    · rw [if_pos hv, hrec num (List.mem_cons_self _ _) hv s hs]
      simp only [setCell_clear hb]
      by_cases hge : min maxSolutions (s + trueCount (setCell b r c num)) ≥ maxSolutions
      · rw [if_pos hge]
        congr 2
        have h1 : maxSolutions ≤ s + trueCount (setCell b r c num) := by
          rw [ge_iff_le, Nat.le_min] at hge
          exact hge.2
        rw [Nat.min_eq_left h1, Nat.min_eq_left (by omega)]
      · rw [if_neg hge]
        have h1 : s + trueCount (setCell b r c num) < maxSolutions := by
          by_contra hcon
          apply hge
          rw [Nat.min_eq_left (by omega)]
        rw [Nat.min_eq_right (Nat.le_of_lt h1), ih' _ h1, Nat.add_assoc]
    · rw [if_neg hv, ih' s hs, hinv num (List.mem_cons_self _ _) hv, Nat.zero_add]

/-- On a conflict-free board with cells at most 9, `backtrack` entered with a
counter below `maxSolutions` restores the board and leaves the counter at the
old value plus the true solution count, capped at `maxSolutions`. -/
theorem backtrack_count (maxSolutions : Nat) :
    ∀ (fuel : Nat) (b : Grid) (s : Nat), ConflictFree b → (∀ r c : Fin 9, b r c ≤ 9) →
      zeroCount b < fuel → s < maxSolutions →
      backtrack maxSolutions fuel b s = some (b, min maxSolutions (s + trueCount b)) := by
  intro fuel
  induction fuel with
  | zero => intro b s _ _ h; omega
  | succ fuel ih =>
    intro b s hcf h9 hz hs
    simp only [backtrack]
    cases hfe : findEmpty b with
    | none =>
      have hvalid := isValidSolution_of_conflictFree (findEmpty_none hfe) hcf h9
      rw [trueCount_of_valid hvalid, Nat.min_eq_right (by omega)]
    | some p =>
      obtain ⟨r, c⟩ := p
      have hb := findEmpty_some hfe
      simp only []
      rw [backtrackLoop_count _ _ b r c hb digits _ _ s hs, ← trueCount_split hb]
      · intro num hnum hv s' hs'
        apply ih _ _ (hcf.setCell_valid hv) _ _ hs'
        · intro r' c'
          simp only [setCell]
          split_ifs
          · exact ((mem_digits_iff _).mp hnum).2
          · exact h9 r' c'
        · have := zeroCount_setCell_fill hb (digits_ne_zero hnum)
          omega
      · intro num hnum hv
        exact trueCount_of_invalid hb (digits_ne_zero hnum) hv

/-- On a conflict-free grid of digits `countSolutions` returns the true
solution count capped at `maxSolutions`, and leaves the grid unchanged. -/
theorem countSolutionsState_eq_min {g : Grid} (hcf : ConflictFree g)
    (h9 : ∀ r c : Fin 9, g r c ≤ 9) {maxSolutions : Nat} (hmax : 1 ≤ maxSolutions) :
    countSolutionsState g maxSolutions = some (g, min maxSolutions (trueCount g)) := by
  unfold countSolutionsState
  rw [backtrack_count maxSolutions 82 g 0 hcf h9 (by have := zeroCount_le g; omega) hmax,
    Nat.zero_add]

theorem trueCount_allOnes : trueCount allOnes = 0 := by
  unfold trueCount
  rw [Finset.card_eq_zero, Finset.eq_empty_iff_forall_not_mem]
  intro s hs
  rw [mem_completions] at hs
  obtain ⟨hvalid, hag⟩ := hs
  have h1 : toGrid s 0 0 = 1 := hag 0 0 (by decide)
  have h2 : toGrid s 0 1 = 1 := hag 0 1 (by decide)
  exact hvalid.conflictFree 0 0 0 1 (Or.inr (by decide)) (Or.inl rfl) (by rw [h1]; decide)
    (h1.trans h2.symm)

/-- C3 as stated fails: the grid with 1 in every cell has no valid
completion (true count 0), yet `countSolutions` finds no empty cell and
returns 1. -/
theorem countSolutions_cutoff_counterexample :
    trueCount allOnes = 0 ∧ countSolutions allOnes 2 = some 1 ∧
    ¬ (trueCount allOnes ≤ 1 → countSolutions allOnes 2 = some (trueCount allOnes)) := by
  have hc : countSolutions allOnes 2 = some 1 := countSolutions_full (fun _ _ => Nat.one_ne_zero) 2
  refine ⟨trueCount_allOnes, hc, ?_⟩
  rw [trueCount_allOnes, hc]
  decide

/-- C3, amended: for a grid of digits 0..9 whose non-zero cells are mutually
conflict-free, `countSolutions(grid, 2)` returns 2 when the true solution
count is at least 2 and the true count itself when that is 0 or 1. -/
theorem countSolutions_cutoff (g : Grid) (hcf : ConflictFree g)
    (h9 : ∀ r c : Fin 9, g r c ≤ 9) :
    (2 ≤ trueCount g → countSolutions g 2 = some 2) ∧
    (trueCount g ≤ 1 → countSolutions g 2 = some (trueCount g)) := by
  have h : countSolutions g 2 = some (min 2 (trueCount g)) := by
    simp only [countSolutions, countSolutionsState_eq_min hcf h9 (by decide : 1 ≤ 2),
      Option.map_some']
  rw [h]
  constructor
  · intro h2
    rw [Nat.min_eq_left h2]
  · intro h1
    rw [Nat.min_eq_right (by omega)]

/-- Witness for C3 (amended): the sample grid with its cell (0,0) emptied. -/
theorem countSolutions_cutoff_witness :
    (2 ≤ trueCount (setCell sampleSolution 0 0 0) →
      countSolutions (setCell sampleSolution 0 0 0) 2 = some 2) ∧
    (trueCount (setCell sampleSolution 0 0 0) ≤ 1 →
      countSolutions (setCell sampleSolution 0 0 0) 2 =
        some (trueCount (setCell sampleSolution 0 0 0))) :=
  countSolutions_cutoff (setCell sampleSolution 0 0 0) (by decide) (by decide)

/-! ## Shuffling -/

/-- Exchanging two positions of an array rearranges it. -/
theorem swapAt_perm (array : List Nat) (i j : Nat) (hi : i < array.length)
    (hj : j < array.length) : (swapAt array i j).Perm array := by
  rw [List.perm_iff_count]
  intro x
  unfold swapAt
  have e1 : array.getD j 0 = array[j] := by
    rw [List.getD_eq_getElem?_getD, List.getElem?_eq_getElem hj]; rfl
  have e2 : array.getD i 0 = array[i] := by
    rw [List.getD_eq_getElem?_getD, List.getElem?_eq_getElem hi]; rfl
  rw [e1, e2]
  have hj' : j < (array.set i array[j]).length := by simpa using hj
  rw [List.count_set _ _ _ _ hj', List.count_set _ _ _ _ hi, List.getElem_set]
  have c1 : (if array[i] == x then 1 else 0) ≤ array.count x := by
    split_ifs with h
    · rw [beq_iff_eq] at h
      exact List.count_pos_iff.mpr (h ▸ List.getElem_mem hi)
    · exact Nat.zero_le _
  have c2 : (if array[j] == x then 1 else 0) ≤ array.count x := by
    split_ifs with h
    · rw [beq_iff_eq] at h
      exact List.count_pos_iff.mpr (h ▸ List.getElem_mem hj)
    · exact Nat.zero_le _
  by_cases hij : i = j
  · subst hij
    simp only [if_true]
    omega
  · simp only [hij, if_false]
    by_cases h1 : array[i] == x <;> by_cases h2 : array[j] == x <;>
      simp only [h1, h2, if_true, if_false] at c1 c2 ⊢ <;> omega

theorem swapAt_length (array : List Nat) (i j : Nat) :
    (swapAt array i j).length = array.length := by
  simp [swapAt]

theorem shuffleFrom_perm : ∀ (i : Nat) (rng : Rng) (array : List Nat), i < array.length →
    (shuffleFrom i rng array).1.Perm array := by
  intro i
  induction i with
  | zero => intro rng array _; exact List.Perm.refl _
  | succ i ih =>
    intro rng array hi
    simp only [shuffleFrom]
    have hj : rng 0 % (i + 2) < array.length :=
      Nat.lt_of_lt_of_le (Nat.mod_lt _ (by omega)) (by omega)
    exact (ih _ _ (by rw [swapAt_length]; omega)).trans (swapAt_perm array _ _ hi hj)

/-- The function `shuffleArray` returns a rearrangement of its argument. -/
theorem shuffleArray_perm (rng : Rng) (array : List Nat) :
    (shuffleArray rng array).1.Perm array := by
  unfold shuffleArray
  cases array with
  | nil => exact List.Perm.refl _
  | cons a l => exact shuffleFrom_perm _ _ _ (by simp)

theorem mem_shuffleArray_digits (rng : Rng) (d : Nat) :
    d ∈ (shuffleArray rng digits).1 ↔ d ∈ digits :=
  (shuffleArray_perm rng digits).mem_iff

/-! ## The backtracking solver -/

theorem solveLoop_spec (recur : Rng → Grid → Option (Bool × Grid × Rng))
    (b : Grid) (r c : Fin 9) (hb : b r c = 0) :
    ∀ (nums : List Nat), (∀ num ∈ nums, num ∈ digits) →
      (∀ num ∈ nums, ∀ rng, ∃ res b' rng',
        recur rng (setCell b r c num) = some (res, b', rng') ∧
        SolveOutcome (setCell b r c num) res b') →
      ∀ rng, ∃ res b' rng', solveLoop recur r c nums rng b = some (res, b', rng') ∧
        (res = false → b' = b) ∧
        (ConflictFree b → (∀ r c : Fin 9, b r c ≤ 9) →
          (res = true → IsValidSolution b' ∧ Agrees b b') ∧
          (res = false → ∀ num ∈ nums, trueCount (setCell b r c num) = 0)) := by
  intro nums
  induction nums with
  | nil =>
    intro _ _ rng
    refine ⟨false, b, rng, rfl, fun _ => rfl, fun _ _ => ⟨fun h => ?_, fun _ n hn => ?_⟩⟩
    · exact absurd h (by decide)
    · exact absurd hn (List.not_mem_nil _)
  | cons num rest ih =>
    intro hdig hrec rng
    have ih' := ih (fun n hn => hdig n (List.mem_cons_of_mem _ hn))
      (fun n hn => hrec n (List.mem_cons_of_mem _ hn))
    have hnum := hdig num (List.mem_cons_self _ _)
    simp only [solveLoop]
    by_cases hv : isValidPlacement b r c num = true
    · rw [if_pos hv]
      obtain ⟨res, b1, rng1, hcall, hout⟩ := hrec num (List.mem_cons_self _ _) rng
      rw [hcall]
      cases res with
      | true =>
        refine ⟨true, b1, rng1, rfl, fun h => absurd h (by decide), fun hcf h9 => ⟨fun _ => ?_,
          fun h => absurd h (by decide)⟩⟩
        have h9' : ∀ r' c' : Fin 9, setCell b r c num r' c' ≤ 9 := by
          intro r' c'
          simp only [setCell]
          split_ifs
          · exact ((mem_digits_iff _).mp hnum).2
          · exact h9 r' c'
        obtain ⟨hvalid, hag⟩ := (hout.2 (hcf.setCell_valid hv) h9').1 rfl
        exact ⟨hvalid, ((agrees_setCell hb (digits_ne_zero hnum) b1).mp hag).1⟩
      | false =>
        have hb1 : b1 = setCell b r c num := hout.1 rfl
        simp only [hb1, setCell_clear hb]
        obtain ⟨res2, b2, rng2, hloop, hrest, hcond⟩ := ih' rng1
        refine ⟨res2, b2, rng2, hloop, hrest, fun hcf h9 => ⟨(hcond hcf h9).1, fun hres n hn => ?_⟩⟩
        rcases List.mem_cons.mp hn with h | h
        · rw [h]
          have h9' : ∀ r' c' : Fin 9, setCell b r c num r' c' ≤ 9 := by
            intro r' c'
            simp only [setCell]
            split_ifs
            · exact ((mem_digits_iff _).mp hnum).2
            · exact h9 r' c'
          exact (hout.2 (hcf.setCell_valid hv) h9').2 rfl
        · exact (hcond hcf h9).2 hres n h
    · rw [if_neg hv]
      obtain ⟨res2, b2, rng2, hloop, hrest, hcond⟩ := ih' rng
      refine ⟨res2, b2, rng2, hloop, hrest, fun hcf h9 => ⟨(hcond hcf h9).1, fun hres n hn => ?_⟩⟩
      rcases List.mem_cons.mp hn with h | h
      · rw [h]
        exact trueCount_of_invalid hb (digits_ne_zero hnum) hv
      · exact (hcond hcf h9).2 hres n h

/-- With a budget above the number of empty cells `solveSudoku` returns, and
what it returns meets `SolveOutcome`. -/
theorem solveSudokuFuel_spec :
    ∀ (fuel : Nat) (rng : Rng) (b : Grid), zeroCount b < fuel →
      ∃ res b' rng', solveSudokuFuel fuel rng b = some (res, b', rng') ∧
        SolveOutcome b res b' := by
  intro fuel
  induction fuel with
  | zero => intro rng b h; omega
  | succ fuel ih =>
    intro rng b hz
    simp only [solveSudokuFuel]
    cases hfe : findEmpty b with
    | none =>
      refine ⟨true, b, rng, rfl, fun h => absurd h (by decide), fun hcf h9 => ⟨fun _ => ?_,
        fun h => absurd h (by decide)⟩⟩
      exact ⟨isValidSolution_of_conflictFree (findEmpty_none hfe) hcf h9, fun _ _ _ => rfl⟩
    | some p =>
      obtain ⟨r, c⟩ := p
      have hb := findEmpty_some hfe
      simp only []
      have hmem : ∀ num ∈ (shuffleArray rng digits).1, num ∈ digits := fun num h =>
        (mem_shuffleArray_digits rng num).mp h
      obtain ⟨res, b', rng', hloop, hrest, hcond⟩ :=
        solveLoop_spec (solveSudokuFuel fuel) b r c hb (shuffleArray rng digits).1 hmem
          (fun num hnum rng0 => ih rng0 _ (by
            have := zeroCount_setCell_fill hb (digits_ne_zero (hmem num hnum))
            omega))
          (shuffleArray rng digits).2
      refine ⟨res, b', rng', hloop, hrest, fun hcf h9 => ⟨(hcond hcf h9).1, fun hres => ?_⟩⟩
      rw [trueCount_split hb]
      apply List.sum_eq_zero
      intro x hx
      obtain ⟨n, hn, rfl⟩ := List.mem_map.mp hx
      exact (hcond hcf h9).2 hres n ((mem_shuffleArray_digits rng n).mpr hn)

/-- The call `solveSudoku(board)` returns for every board and every random
stream, and meets `SolveOutcome`. -/
theorem solveSudoku_spec (rng : Rng) (b : Grid) :
    ∃ res b' rng', solveSudoku rng b = some (res, b', rng') ∧ SolveOutcome b res b' :=
  solveSudokuFuel_spec 82 rng b (by have := zeroCount_le b; omega)

/-! ## Seeding the diagonal boxes -/

theorem cornerIdx_injective (b : Fin 3) : Function.Injective (cornerIdx b) := by
  intro i j h
  simp only [cornerIdx, Fin.mk.injEq] at h
  apply Fin.ext
  omega

theorem cornerIdx_div (b i : Fin 3) : (cornerIdx b i).val / 3 = b.val := by
  simp only [cornerIdx]; omega

/-- Every index is a corner index of its own band. -/
theorem exists_cornerIdx (r : Fin 9) :
    ∃ i : Fin 3, cornerIdx ⟨r.val / 3, by omega⟩ i = r := by
  refine ⟨⟨r.val % 3, by omega⟩, ?_⟩
  apply Fin.ext
  simp only [cornerIdx]
  omega

/-- The function `fillBox` writes the popped values into the cells of the box
in row-major order. -/
theorem fillBox_cell_in (rng : Rng) (board : Grid) (br bc i j : Fin 3) :
    (fillBox rng board br bc).1 (cornerIdx br i) (cornerIdx bc j) =
      (shuffleArray rng digits).1.reverse.getD (3 * i.val + j.val) 0 := by
  have hr : ∀ a b : Fin 3, (cornerIdx br a = cornerIdx br b) = (a = b) := fun a b =>
    propext ⟨fun h => cornerIdx_injective br h, fun h => by rw [h]⟩
  have hc : ∀ a b : Fin 3, (cornerIdx bc a = cornerIdx bc b) = (a = b) := fun a b =>
    propext ⟨fun h => cornerIdx_injective bc h, fun h => by rw [h]⟩
  simp only [fillBox, idx3, List.foldl, setCell, hr, hc]
  fin_cases i <;> fin_cases j <;> simp

/-- The function `fillBox` leaves the cells outside the box alone. -/
theorem fillBox_cell_out (rng : Rng) (board : Grid) (br bc : Fin 3) (r c : Fin 9)
    (h : r.val / 3 ≠ br.val ∨ c.val / 3 ≠ bc.val) :
    (fillBox rng board br bc).1 r c = board r c := by
  have hne : ∀ i j : Fin 3, ¬ (r = cornerIdx br i ∧ c = cornerIdx bc j) := by
    rintro i j ⟨h1, h2⟩
    have a1 := cornerIdx_div br i
    have a2 := cornerIdx_div bc j
    rw [← h1] at a1
    rw [← h2] at a2
    omega
  simp only [fillBox, idx3, List.foldl, setCell, hne, if_false]

theorem fillBox_rng (rng : Rng) (board : Grid) (br bc : Fin 3) :
    (fillBox rng board br bc).2 = (shuffleArray rng digits).2 := by
  unfold fillBox
  dsimp only

/-- The nine values popped by `fillBox` are the digits 1..9 in some order. -/
theorem popped_perm (rng : Rng) : (shuffleArray rng digits).1.reverse.Perm digits :=
  (List.reverse_perm _).trans (shuffleArray_perm rng digits)

theorem popped_getD_mem (rng : Rng) (k : Nat) (hk : k < 9) :
    (shuffleArray rng digits).1.reverse.getD k 0 ∈ digits := by
  have hlen : (shuffleArray rng digits).1.reverse.length = 9 := (popped_perm rng).length_eq
  have hk' : k < (shuffleArray rng digits).1.reverse.length := by omega
  rw [List.getD_eq_getElem _ _ hk']
  exact (popped_perm rng).mem_iff.mp (List.getElem_mem _)

theorem popped_getD_injective (rng : Rng) (k l : Nat) (hk : k < 9) (hl : l < 9)
    (h : (shuffleArray rng digits).1.reverse.getD k 0 =
      (shuffleArray rng digits).1.reverse.getD l 0) : k = l := by
  have hlen : (shuffleArray rng digits).1.reverse.length = 9 := (popped_perm rng).length_eq
  have hnd : (shuffleArray rng digits).1.reverse.Nodup :=
    (popped_perm rng).nodup_iff.mpr digits_nodup
  have hk' : k < (shuffleArray rng digits).1.reverse.length := by omega
  have hl' : l < (shuffleArray rng digits).1.reverse.length := by omega
  rw [List.getD_eq_getElem _ _ hk', List.getD_eq_getElem _ _ hl'] at h
  exact (List.Nodup.getElem_inj_iff hnd).mp h

/-- After the three `fillBox` calls each diagonal box holds the values popped
from its own shuffled array, and every other cell keeps its old value. -/
theorem fillDiagonal_cells (rng : Rng) (board : Grid) :
    ∃ f : Fin 3 → Rng,
      (∀ b i j : Fin 3, (fillDiagonal rng board).1 (cornerIdx b i) (cornerIdx b j) =
        (shuffleArray (f b) digits).1.reverse.getD (3 * i.val + j.val) 0) ∧
      (∀ r c : Fin 9, r.val / 3 ≠ c.val / 3 → (fillDiagonal rng board).1 r c = board r c) := by
  let rngB : Rng := (shuffleArray rng digits).2
  let rngC : Rng := (shuffleArray rngB digits).2
  refine ⟨fun b => if b = 0 then rng else if b = 1 then rngB else rngC, ?_, ?_⟩
  · intro b i j
    unfold fillDiagonal
    dsimp only
    have d1 := fun a => cornerIdx_div b a
    by_cases h0 : b = 0
    · subst h0
      rw [fillBox_cell_out _ _ 2 2 _ _ (Or.inl (by rw [d1]; decide)),
        fillBox_cell_out _ _ 1 1 _ _ (Or.inl (by rw [d1]; decide)), fillBox_cell_in]
      rfl
    · by_cases h1 : b = 1
      · subst h1
        rw [fillBox_cell_out _ _ 2 2 _ _ (Or.inl (by rw [d1]; decide)), fillBox_cell_in,
          fillBox_rng]
        rfl
      · have h2 : b = 2 := by
          fin_cases b
          · exact absurd rfl h0
          · exact absurd rfl h1
          · rfl
        subst h2
        rw [fillBox_cell_in, fillBox_rng, fillBox_rng]
        rfl
  · intro r c hrc
    unfold fillDiagonal
    dsimp only
    have key : ∀ b : Fin 3, r.val / 3 ≠ b.val ∨ c.val / 3 ≠ b.val := by
      intro b
      by_contra hcon
      push_neg at hcon
      exact hrc (hcon.1.trans hcon.2.symm)
    rw [fillBox_cell_out _ _ 2 2 _ _ (key 2), fillBox_cell_out _ _ 1 1 _ _ (key 1),
      fillBox_cell_out _ _ 0 0 _ _ (key 0)]

/-- The board seeded by `generateSolvedBoard` holds digits only and is
conflict-free. -/
theorem fillDiagonal_conflictFree (rng : Rng) :
    ConflictFree (fillDiagonal rng emptyGrid).1 ∧
    ∀ r c : Fin 9, (fillDiagonal rng emptyGrid).1 r c ≤ 9 := by
  obtain ⟨f, hin, hout⟩ := fillDiagonal_cells rng emptyGrid
  have hzero : ∀ r c : Fin 9, r.val / 3 ≠ c.val / 3 → (fillDiagonal rng emptyGrid).1 r c = 0 :=
    fun r c h => hout r c h
  have hcell : ∀ r c : Fin 9, r.val / 3 = c.val / 3 →
      ∃ b i j : Fin 3, r = cornerIdx b i ∧ c = cornerIdx b j ∧ b.val = r.val / 3 := by
    intro r c h
    obtain ⟨i, hi⟩ := exists_cornerIdx r
    obtain ⟨j, hj⟩ := exists_cornerIdx c
    have hbc : (⟨c.val / 3, by omega⟩ : Fin 3) = ⟨r.val / 3, by omega⟩ := by
      apply Fin.ext
      exact h.symm
    rw [hbc] at hj
    exact ⟨⟨r.val / 3, by omega⟩, i, j, hi.symm, hj.symm, rfl⟩
  constructor
  · intro r c r' c' hne hu hnz heq
    have hd : r.val / 3 = c.val / 3 := by
      by_contra hcon
      exact hnz (hzero r c hcon)
    have hd' : r'.val / 3 = c'.val / 3 := by
      by_contra hcon
      rw [hzero r' c' hcon] at heq
      exact hnz heq
    obtain ⟨b, i, j, hr, hc, hb⟩ := hcell r c hd
    obtain ⟨b', i', j', hr', hc', hb'⟩ := hcell r' c' hd'
    have hbb : b = b' := by
      apply Fin.ext
      rcases hu with h | h | ⟨h1, _⟩
      · rw [hb, hb', h]
      · rw [hb, hb', hd, hd', h]
      · rw [hb, hb', h1]
    subst hbb
    rw [hr, hc, hr', hc', hin, hin] at heq
    have hk := popped_getD_injective (f b) _ _ (by omega) (by omega) heq
    have hi : i = i' := by apply Fin.ext; omega
    have hj : j = j' := by apply Fin.ext; omega
    rw [hr, hc, hr', hc', hi, hj] at hne
    rcases hne with h | h <;> exact h rfl
  · intro r c
    by_cases hd : r.val / 3 = c.val / 3
    · obtain ⟨b, i, j, hr, hc, _⟩ := hcell r c hd
      rw [hr, hc, hin]
      exact ((mem_digits_iff _).mp (popped_getD_mem (f b) _ (by omega))).2
    · rw [hzero r c hd]
      exact Nat.zero_le _

/-- The function `generateSolvedBoard` returns; its solution grid is a valid
solution as soon as the seeded board has a completion at all. -/
theorem generateSolvedBoard_of_completion (rng : Rng) (gs : GameState)
    (hex : trueCount (fillDiagonal rng emptyGrid).1 ≠ 0) :
    ∃ gs' rng', generateSolvedBoard rng gs = some (gs', rng') ∧
      IsValidSolution gs'.solution := by
  obtain ⟨res, b', rng', hcall, hout⟩ :=
    solveSudoku_spec (fillDiagonal rng emptyGrid).2 (fillDiagonal rng emptyGrid).1
  obtain ⟨hcf, h9⟩ := fillDiagonal_conflictFree rng
  unfold generateSolvedBoard
  dsimp only
  rw [hcall]
  refine ⟨_, rng', rfl, ?_⟩
  cases res with
  | true => exact ((hout.2 hcf h9).1 rfl).1
  | false => exact absurd ((hout.2 hcf h9).2 rfl) hex

/-! ## Selection -/

theorem selectCell_frame (gs : GameState) (row col : Fin 9) :
    selectCell gs row col = { gs with selectedCell := (selectCell gs row col).selectedCell } := by
  unfold selectCell
  dsimp only
  split_ifs <;> rfl

theorem selectCell_selected (gs : GameState) (row col : Fin 9) :
    (selectCell gs row col).selectedCell =
      if gs.initialBoard row col ≠ 0 ∨ gs.selectedCell = some (row, col) then none
      else some (row, col) := by
  unfold selectCell
  dsimp only
  by_cases h1 : gs.selectedCell = some (row, col)
  · rw [if_pos h1, if_pos (Or.inr h1)]
  · by_cases h2 : gs.initialBoard row col ≠ 0
    · rw [if_neg h1, if_pos h2, if_pos (Or.inl h2)]
    · rw [if_neg h1, if_neg h2, if_neg (by tauto)]

/-- C11: after `selectCell(r, c)` the selection is none when the cell is a
given cell or was the selected cell, and is `(r, c)` otherwise; the three
grids are unchanged. -/
theorem selectCell_spec (gs : GameState) (r c : Fin 9) :
    (selectCell gs r c).selectedCell =
      (if gs.initialBoard r c ≠ 0 ∨ gs.selectedCell = some (r, c) then none
       else some (r, c)) ∧
    (selectCell gs r c).board = gs.board ∧
    (selectCell gs r c).solution = gs.solution ∧
    (selectCell gs r c).initialBoard = gs.initialBoard := by
  refine ⟨selectCell_selected gs r c, ?_, ?_, ?_⟩ <;> rw [selectCell_frame gs r c]

/-- C16, the code at the failing input: the session `idleState` is inactive
and has no selection, yet `selectCell(0, 0)` selects the cell (0,0), whereas
the keyboard path to `selectCell` and every other play operation do nothing in
an inactive session. -/
theorem selectCell_idle :
    idleState.gameActive = false ∧ idleState.selectedCell = none ∧
    (selectCell idleState 0 0).selectedCell = some (0, 0) := by
  refine ⟨rfl, rfl, ?_⟩
  rw [selectCell_selected]
  decide

/-! ## Solving the puzzle for the player -/

theorem foldl_setCell_apply (s : Grid) (l : List (Fin 9 × Fin 9)) (b : Grid) (r c : Fin 9) :
    l.foldl (fun b p => setCell b p.1 p.2 (s p.1 p.2)) b r c =
      if (r, c) ∈ l then s r c else b r c := by
  induction l generalizing b with
  | nil => simp
  | cons p rest ih =>
    rw [List.foldl_cons, ih]
    by_cases hin : (r, c) ∈ rest
    · rw [if_pos hin, if_pos (List.mem_cons_of_mem _ hin)]
    · rw [if_neg hin]
      by_cases hp : (r, c) = p
      · rw [if_pos (by rw [hp]; exact List.mem_cons_self _ _), ← hp]
        exact setCell_same _ _ _ _
      · rw [if_neg (by rw [List.mem_cons]; tauto)]
        apply setCell_other
        by_contra hcon
        push_neg at hcon
        exact hp (Prod.ext hcon.1 hcon.2)

/-- The copy loop of `solvePuzzle` makes the board equal to the solution. -/
theorem copySolution_eq (board solution : Grid) : copySolution board solution = solution := by
  funext r c
  unfold copySolution
  rw [foldl_setCell_apply, if_pos (mem_allCells _)]

theorem solvePuzzle_active (gs : GameState) (hactive : gs.gameActive = true) :
    solvePuzzle gs =
      { gs with board := gs.solution, gameActive := false, timerInterval := false } := by
  unfold solvePuzzle
  rw [if_neg (by simp [hactive]), copySolution_eq]

/-- C12: in an active session `solvePuzzle` deactivates the session and makes
the board equal to the solution in every cell; the solution and the initial
board are unchanged. -/
theorem solvePuzzle_spec (gs : GameState) (hactive : gs.gameActive = true) :
    (solvePuzzle gs).gameActive = false ∧
    (∀ r c : Fin 9, (solvePuzzle gs).board r c = (solvePuzzle gs).solution r c) ∧
    (solvePuzzle gs).solution = gs.solution ∧
    (solvePuzzle gs).initialBoard = gs.initialBoard := by
  rw [solvePuzzle_active gs hactive]
  exact ⟨rfl, fun _ _ => rfl, rfl, rfl⟩

/-- Witness for C12: the sample session. -/
theorem solvePuzzle_spec_witness :
    (solvePuzzle sampleState).gameActive = false ∧
    (∀ r c : Fin 9, (solvePuzzle sampleState).board r c = (solvePuzzle sampleState).solution r c) ∧
    (solvePuzzle sampleState).solution = sampleState.solution ∧
    (solvePuzzle sampleState).initialBoard = sampleState.initialBoard :=
  solvePuzzle_spec sampleState rfl

/-! ## Hints -/

theorem mem_emptyCells (board : Grid) (p : Fin 9 × Fin 9) :
    p ∈ emptyCells board ↔ board p.1 p.2 = 0 := by
  unfold emptyCells
  rw [List.mem_filter, beq_iff_eq]
  exact ⟨fun h => h.2, fun h => ⟨mem_allCells p, h⟩⟩

theorem emptyCells_length_eq_zero_iff (board : Grid) :
    (emptyCells board).length = 0 ↔ ∀ r c : Fin 9, board r c ≠ 0 := by
  rw [List.length_eq_zero]
  constructor
  · intro h r c hz
    have hm := (mem_emptyCells board (r, c)).mpr hz
    rw [h] at hm
    exact List.not_mem_nil _ hm
  · intro h
    rw [List.eq_nil_iff_forall_not_mem]
    intro p hp
    exact h p.1 p.2 ((mem_emptyCells board p).mp hp)

/-- The function `checkGameCompletion` changes nothing but the activity flag,
the win counter, the timer handle and the best time. -/
theorem checkGameCompletion_frame (gs : GameState) :
    (checkGameCompletion gs).1 =
      { gs with gameActive := (checkGameCompletion gs).1.gameActive,
                gamesWon := (checkGameCompletion gs).1.gamesWon,
                timerInterval := (checkGameCompletion gs).1.timerInterval,
                bestTime := (checkGameCompletion gs).1.bestTime } := by
  unfold checkGameCompletion
  dsimp only
  split_ifs <;> rfl

theorem provideHint_inactive (rng : Rng) (gs : GameState) (h : gs.gameActive = false) :
    provideHint rng gs = (gs, rng) := by
  unfold provideHint
  rw [if_pos (by simp [h])]

theorem provideHint_full (rng : Rng) (gs : GameState) (h : ∀ r c : Fin 9, gs.board r c ≠ 0) :
    provideHint rng gs = (gs, rng) := by
  unfold provideHint
  rw [dif_pos ((emptyCells_length_eq_zero_iff gs.board).mpr h)]
  split_ifs <;> rfl

/-- In an active session with an empty cell `provideHint` writes the solution
digit into one empty cell, counts the hint and runs the completion check. -/
theorem provideHint_hint (rng : Rng) (gs : GameState) (hactive : gs.gameActive = true)
    (hz : ∃ r c : Fin 9, gs.board r c = 0) :
    ∃ r c : Fin 9, gs.board r c = 0 ∧
      provideHint rng gs =
        ((checkGameCompletion { gs with board := setCell gs.board r c (gs.solution r c),
                                        hintsUsed := gs.hintsUsed + 1 }).1, rng.next) := by
  have hlen : ¬ (emptyCells gs.board).length = 0 := by
    rw [emptyCells_length_eq_zero_iff]
    obtain ⟨r, c, h⟩ := hz
    exact fun hall => hall r c h
  refine ⟨((emptyCells gs.board).get
      ⟨rng 0 % (emptyCells gs.board).length, Nat.mod_lt _ (Nat.pos_of_ne_zero hlen)⟩).1,
    ((emptyCells gs.board).get
      ⟨rng 0 % (emptyCells gs.board).length, Nat.mod_lt _ (Nat.pos_of_ne_zero hlen)⟩).2, ?_, ?_⟩
  · exact (mem_emptyCells gs.board _).mp (List.get_mem _ _ _)
  · unfold provideHint
    rw [if_neg (by simp [hactive]), dif_neg hlen]

/-- C13 as stated fails: in `wrongState` the cell (0,0) is the only empty cell
and the solution is fully filled, but the cell (0,1) holds a wrong digit, so
after the hint the session is still active and `gamesWon` is unchanged. -/
theorem provideHint_win_counterexample :
    wrongState.gameActive = true ∧ wrongState.board 0 0 = 0 ∧
    (∀ r c : Fin 9, wrongState.board r c = 0 → r = 0 ∧ c = 0) ∧
    (∀ r c : Fin 9, wrongState.solution r c ≠ 0) ∧
    (provideHint (fun _ => 0) wrongState).1.board 0 0 = wrongState.solution 0 0 ∧
    (provideHint (fun _ => 0) wrongState).1.gameActive = true ∧
    (provideHint (fun _ => 0) wrongState).1.gamesWon = wrongState.gamesWon := by
  decide

/-- C13, amended: in an active session whose board has exactly one empty cell
`(r, c)`, whose other cells hold the solution digits and whose solution is
fully filled, `provideHint` writes the solution digit into `(r, c)` and the win
fires: the session is inactive and `gamesWon` has grown by one. -/
theorem provideHint_win (rng : Rng) (gs : GameState) (r c : Fin 9)
    (hactive : gs.gameActive = true) (hrc : gs.board r c = 0)
    (hone : ∀ r' c' : Fin 9, gs.board r' c' = 0 → r' = r ∧ c' = c)
    (hright : ∀ r' c' : Fin 9, gs.board r' c' ≠ 0 → gs.board r' c' = gs.solution r' c')
    (hsol : ∀ r' c' : Fin 9, gs.solution r' c' ≠ 0) :
    (provideHint rng gs).1.board r c = gs.solution r c ∧
    (provideHint rng gs).1.gameActive = false ∧
    (provideHint rng gs).1.gamesWon = gs.gamesWon + 1 := by
  obtain ⟨r1, c1, h0, heq⟩ := provideHint_hint rng gs hactive ⟨r, c, hrc⟩
  obtain ⟨rfl, rfl⟩ := hone r1 c1 h0
  have hb : setCell gs.board r1 c1 (gs.solution r1 c1) = gs.solution := by
    funext r' c'
    unfold setCell
    split_ifs with h
    · rw [h.1, h.2]
    · by_cases hz : gs.board r' c' = 0
      · exact absurd (hone r' c' hz) h
      · exact hright r' c' hz
  have hwon := checkGameCompletion_of_won
    { gs with board := setCell gs.board r1 c1 (gs.solution r1 c1),
              hintsUsed := gs.hintsUsed + 1 } hactive
    (fun r' c' => by show setCell gs.board r1 c1 (gs.solution r1 c1) r' c' ≠ 0
                     rw [hb]; exact hsol r' c')
    (fun r' c' => by show setCell gs.board r1 c1 (gs.solution r1 c1) r' c' = gs.solution r' c'
                     rw [hb])
  rw [heq, hwon]
  refine ⟨?_, ?_, ?_⟩ <;> dsimp only <;> split_ifs <;> first | rfl | exact setCell_same _ _ _ _

/-- Witness for C13 (amended): the sample session with its cell (0,0) empty. -/
theorem provideHint_win_witness :
    (provideHint (fun _ => 0) oneLeftState).1.board 0 0 = oneLeftState.solution 0 0 ∧
    (provideHint (fun _ => 0) oneLeftState).1.gameActive = false ∧
    (provideHint (fun _ => 0) oneLeftState).1.gamesWon = oneLeftState.gamesWon + 1 :=
  provideHint_win (fun _ => 0) oneLeftState 0 0 rfl (by decide) (by decide) (by decide)
    (by decide)

/-- What `provideHint` does to the grids and the hint counter in every
session: either nothing, or one empty cell receives its solution value and the
counter grows by one. -/
theorem provideHint_cases (rng : Rng) (gs : GameState) :
    (provideHint rng gs).1.solution = gs.solution ∧
    (provideHint rng gs).1.initialBoard = gs.initialBoard ∧
    (((provideHint rng gs).1.board = gs.board ∧
        (provideHint rng gs).1.hintsUsed = gs.hintsUsed ∧
        (gs.gameActive = false ∨ ∀ r c : Fin 9, gs.board r c ≠ 0)) ∨
      (gs.gameActive = true ∧ ∃ r c : Fin 9, gs.board r c = 0 ∧
        (provideHint rng gs).1.board = setCell gs.board r c (gs.solution r c) ∧
        (provideHint rng gs).1.hintsUsed = gs.hintsUsed + 1)) := by
  by_cases hactive : gs.gameActive = true
  · by_cases hz : ∃ r c : Fin 9, gs.board r c = 0
    · obtain ⟨r, c, h0, heq⟩ := provideHint_hint rng gs hactive hz
      rw [heq]
      dsimp only
      rw [checkGameCompletion_frame]
      exact ⟨rfl, rfl, Or.inr ⟨hactive, r, c, h0, rfl, rfl⟩⟩
    · have hfull : ∀ r c : Fin 9, gs.board r c ≠ 0 := fun r c h => hz ⟨r, c, h⟩
      rw [provideHint_full rng gs hfull]
      exact ⟨rfl, rfl, Or.inl ⟨rfl, rfl, Or.inr hfull⟩⟩
  · have hin : gs.gameActive = false := by simpa using hactive
    rw [provideHint_inactive rng gs hin]
    exact ⟨rfl, rfl, Or.inl ⟨rfl, rfl, Or.inl hin⟩⟩

/-- In an active session with an empty cell `provideHint` picks the entry of
`emptyCells` at the drawn index, writes the solution value there, counts the
hint and runs the completion check. -/
theorem provideHint_pick (rng : Rng) (gs : GameState) (hactive : gs.gameActive = true)
    (hz : ∃ r c : Fin 9, gs.board r c = 0) :
    ∃ r c : Fin 9,
      (emptyCells gs.board).get? (rng 0 % (emptyCells gs.board).length) = some (r, c) ∧
      gs.board r c = 0 ∧
      provideHint rng gs =
        ((checkGameCompletion { gs with board := setCell gs.board r c (gs.solution r c),
                                        hintsUsed := gs.hintsUsed + 1 }).1, rng.next) := by
  have hlen : ¬ (emptyCells gs.board).length = 0 := by
    rw [emptyCells_length_eq_zero_iff]
    obtain ⟨r, c, h⟩ := hz
    exact fun hall => hall r c h
  have hlt : rng 0 % (emptyCells gs.board).length < (emptyCells gs.board).length :=
    Nat.mod_lt _ (Nat.pos_of_ne_zero hlen)
  refine ⟨((emptyCells gs.board).get ⟨_, hlt⟩).1, ((emptyCells gs.board).get ⟨_, hlt⟩).2,
    ?_, ?_, ?_⟩
  · exact List.get?_eq_get hlt
  · exact (mem_emptyCells gs.board _).mp (List.get_mem _ _ _)
  · unfold provideHint
    rw [if_neg (by simp [hactive]), dif_neg hlen]

/-- C14: in every active session and for every random stream: if the board
has an empty cell, `provideHint` writes exactly one cell of the board, the
entry of `emptyCells` at the drawn index; that cell was empty before and
afterwards holds the solution value of that cell, every other cell keeps its
value, so that (the solution value of an empty cell being a digit 1..9, as in
a fully filled solution) the cells whose value has changed are exactly that
one; `hintsUsed` grows by exactly one.  If the board has no empty cell, the
board and `hintsUsed` are unchanged.  The solution and the initial board are
unchanged in both cases. -/
theorem provideHint_spec (rng : Rng) (gs : GameState) (hactive : gs.gameActive = true) :
    ((∃ r c : Fin 9, gs.board r c = 0) →
      ∃ r c : Fin 9,
        (emptyCells gs.board).get? (rng 0 % (emptyCells gs.board).length) = some (r, c) ∧
        gs.board r c = 0 ∧
        (provideHint rng gs).1.board r c = gs.solution r c ∧
        (∀ r' c' : Fin 9, (r' ≠ r ∨ c' ≠ c) →
          (provideHint rng gs).1.board r' c' = gs.board r' c') ∧
        (gs.solution r c ≠ 0 → ∀ r' c' : Fin 9,
          (provideHint rng gs).1.board r' c' ≠ gs.board r' c' ↔ (r' = r ∧ c' = c)) ∧
        (provideHint rng gs).1.hintsUsed = gs.hintsUsed + 1) ∧
    ((∀ r c : Fin 9, gs.board r c ≠ 0) →
      (provideHint rng gs).1.board = gs.board ∧
      (provideHint rng gs).1.hintsUsed = gs.hintsUsed) ∧
    (provideHint rng gs).1.solution = gs.solution ∧
    (provideHint rng gs).1.initialBoard = gs.initialBoard := by
  obtain ⟨hs, hi, _⟩ := provideHint_cases rng gs
  refine ⟨?_, ?_, hs, hi⟩
  · intro hz
    obtain ⟨r, c, hget, h0, heq⟩ := provideHint_pick rng gs hactive hz
    have hb : (provideHint rng gs).1.board = setCell gs.board r c (gs.solution r c) := by
      rw [heq]
      exact checkGameCompletion_board _
    have hh : (provideHint rng gs).1.hintsUsed = gs.hintsUsed + 1 := by
      rw [heq]
      dsimp only
      rw [checkGameCompletion_frame]
    refine ⟨r, c, hget, h0, ?_, ?_, ?_, hh⟩
    · rw [hb]; exact setCell_same _ _ _ _
    · intro r' c' hne
      rw [hb]; exact setCell_other _ _ _ _ _ _ hne
    · intro hsol r' c'
      rw [hb]
      constructor
      · intro hne
        by_contra hcon
        exact hne (setCell_other _ _ _ _ _ _ (by tauto))
      · rintro ⟨rfl, rfl⟩
        rw [setCell_same, h0]
        exact hsol
  · intro hfull
    have hp := provideHint_full rng gs hfull
    rw [hp]
    exact ⟨rfl, rfl⟩

/-- Witness for C14: the sample session with its cell (0,0) empty; the hint
changes the cell (0,0) and no other. -/
theorem provideHint_spec_witness :
    ∃ r c : Fin 9, oneLeftState.board r c = 0 ∧
      (provideHint (fun _ => 0) oneLeftState).1.board r c = oneLeftState.solution r c ∧
      (∀ r' c' : Fin 9, (provideHint (fun _ => 0) oneLeftState).1.board r' c' ≠
        oneLeftState.board r' c' ↔ (r' = r ∧ c' = c)) ∧
      (provideHint (fun _ => 0) oneLeftState).1.hintsUsed = oneLeftState.hintsUsed + 1 :=
  have ⟨r, c, _, h0, hb, _, hx, hh⟩ :=
    (provideHint_spec (fun _ => 0) oneLeftState rfl).1 ⟨0, 0, by decide⟩
  ⟨r, c, h0, hb, hx ((by decide : ∀ r c : Fin 9, oneLeftState.solution r c ≠ 0) r c), hh⟩

/-! ## Invalid moves -/

theorem inputNumber_inactive (gs : GameState) (n : Nat) (h : gs.gameActive = false) :
    inputNumber gs n = gs := by
  unfold inputNumber
  split
  · rfl
  · rw [if_pos (by simp [h])]

theorem inputNumber_unselected (gs : GameState) (n : Nat) (h : gs.selectedCell = none) :
    inputNumber gs n = gs := by
  unfold inputNumber
  rw [h]

theorem inputNumber_given (gs : GameState) (n : Nat) (r c : Fin 9)
    (hsel : gs.selectedCell = some (r, c)) (h : gs.initialBoard r c ≠ 0) :
    inputNumber gs n = gs := by
  unfold inputNumber
  rw [hsel]
  dsimp only
  split_ifs
  · rfl
  · rfl

theorem solvePuzzle_inactive (gs : GameState) (h : gs.gameActive = false) :
    solvePuzzle gs = gs := by
  unfold solvePuzzle
  rw [if_pos (by simp [h])]

theorem checkGameCompletion_inactive (gs : GameState) (h : gs.gameActive = false) :
    checkGameCompletion gs = (gs, none) := by
  unfold checkGameCompletion
  rw [if_pos (by simp [h])]

theorem checkCurrentSolution_inactive (gs : GameState) (h : gs.gameActive = false) :
    checkCurrentSolution gs = gs := by
  unfold checkCurrentSolution
  rw [if_pos (by simp [h])]

/-- C15: `inputNumber(n)` leaves the whole session state unchanged when the
session is inactive, when no cell is selected, or when the selected cell is a
given cell; `provideHint` (which then draws no random number), `solvePuzzle`,
`checkGameCompletion` and `checkCurrentSolution` leave the whole session state
unchanged when the session is inactive. -/
theorem invalid_moves_ignored (rng : Rng) (gs : GameState) (n : Nat) :
    ((gs.gameActive = false ∨ gs.selectedCell = none ∨
        ∃ r c : Fin 9, gs.selectedCell = some (r, c) ∧ gs.initialBoard r c ≠ 0) →
      inputNumber gs n = gs) ∧
    (gs.gameActive = false →
      provideHint rng gs = (gs, rng) ∧ solvePuzzle gs = gs ∧
      checkGameCompletion gs = (gs, none) ∧ checkCurrentSolution gs = gs) := by
  constructor
  · rintro (h | h | ⟨r, c, hsel, h⟩)
    · exact inputNumber_inactive gs n h
    · exact inputNumber_unselected gs n h
    · exact inputNumber_given gs n r c hsel h
  · intro h
    exact ⟨provideHint_inactive rng gs h, solvePuzzle_inactive gs h,
      checkGameCompletion_inactive gs h, checkCurrentSolution_inactive gs h⟩

/-- Witness for C15: the ended sample session, and the sample session with a
given cell selected. -/
theorem invalid_moves_ignored_witness :
    inputNumber idleState 5 = idleState ∧
    inputNumber { sampleState with selectedCell := some (4, 4) } 5 =
      { sampleState with selectedCell := some (4, 4) } ∧
    solvePuzzle idleState = idleState :=
  ⟨(invalid_moves_ignored (fun _ => 0) idleState 5).1 (Or.inl rfl),
   (invalid_moves_ignored (fun _ => 0) { sampleState with selectedCell := some (4, 4) } 5).1
     (Or.inr (Or.inr ⟨4, 4, rfl, by decide⟩)),
   ((invalid_moves_ignored (fun _ => 0) idleState 5).2 rfl).2.1⟩

/-! ## Given cells -/

theorem KeepsGivens.refl (gs : GameState) : KeepsGivens gs gs := ⟨rfl, rfl, id⟩

theorem KeepsGivens.trans {a b c : GameState} (h1 : KeepsGivens a b) (h2 : KeepsGivens b c) :
    KeepsGivens a c :=
  ⟨h2.1.trans h1.1, h2.2.1.trans h1.2.1, fun h => h2.2.2 (h1.2.2 h)⟩

/-- A step that changes no grid keeps the given cells. -/
theorem KeepsGivens.of_grids {gs gs' : GameState} (hb : gs'.board = gs.board)
    (hs : gs'.solution = gs.solution) (hi : gs'.initialBoard = gs.initialBoard) :
    KeepsGivens gs gs' := by
  refine ⟨hs, hi, fun h r c hne => ?_⟩
  rw [hb, hs, hi]
  rw [hi] at hne
  exact h r c hne

/-- A step that writes one cell that is not a given cell keeps the given
cells. -/
theorem KeepsGivens.of_write {gs gs' : GameState} (r c : Fin 9) (v : Nat)
    (hb : gs'.board = setCell gs.board r c v)
    (hs : gs'.solution = gs.solution) (hi : gs'.initialBoard = gs.initialBoard)
    (hfree : gs.initialBoard r c = 0) : KeepsGivens gs gs' := by
  refine ⟨hs, hi, fun h r' c' hne => ?_⟩
  rw [hb, hs, hi]
  rw [hi] at hne
  have hcell : r' ≠ r ∨ c' ≠ c := by
    by_contra hcon
    push_neg at hcon
    rw [hcon.1, hcon.2] at hne
    exact hne hfree
  rw [setCell_other _ _ _ _ _ _ hcell]
  exact h r' c' hne

theorem selectCell_keeps (gs : GameState) (row col : Fin 9) :
    KeepsGivens gs (selectCell gs row col) := by
  apply KeepsGivens.of_grids <;> rw [selectCell_frame gs row col]

theorem checkGameCompletion_keeps (gs : GameState) :
    KeepsGivens gs (checkGameCompletion gs).1 := by
  apply KeepsGivens.of_grids <;> rw [checkGameCompletion_frame gs]

theorem checkCurrentSolution_keeps (gs : GameState) :
    KeepsGivens gs (checkCurrentSolution gs) := by
  unfold checkCurrentSolution
  split_ifs
  · exact KeepsGivens.refl gs
  · exact KeepsGivens.refl gs
  · exact KeepsGivens.of_grids rfl rfl rfl

theorem inputNumber_keeps (gs : GameState) (n : Nat) : KeepsGivens gs (inputNumber gs n) := by
  unfold inputNumber
  split
  · exact KeepsGivens.refl gs
  · rename_i row col _
    dsimp only
    split_ifs with h1 h2 h3 h4
    · exact KeepsGivens.refl gs
    · exact KeepsGivens.refl gs
    · exact KeepsGivens.of_grids rfl rfl rfl
    · have hfree : gs.initialBoard row col = 0 := by simpa using h2
      apply KeepsGivens.of_write row col 0 _ _ _ hfree
      · show (checkGameCompletion _).1.board = _
        rw [checkGameCompletion_board]
      · show (checkGameCompletion _).1.solution = _
        rw [checkGameCompletion_frame]
      · show (checkGameCompletion _).1.initialBoard = _
        rw [checkGameCompletion_frame]
    · have hfree : gs.initialBoard row col = 0 := by simpa using h2
      apply KeepsGivens.of_write row col n _ _ _ hfree
      · show (checkGameCompletion _).1.board = _
        rw [checkGameCompletion_board]
      · show (checkGameCompletion _).1.solution = _
        rw [checkGameCompletion_frame]
      · show (checkGameCompletion _).1.initialBoard = _
        rw [checkGameCompletion_frame]

theorem eraseSelected_keeps (gs : GameState) : KeepsGivens gs (eraseSelected gs) := by
  unfold eraseSelected
  split
  · exact KeepsGivens.refl gs
  · rename_i row col _
    split_ifs with h
    · exact KeepsGivens.of_write row col 0 rfl rfl rfl h
    · exact KeepsGivens.refl gs

theorem eraserClick_keeps (gs : GameState) : KeepsGivens gs (eraserClick gs) := by
  unfold eraserClick
  split_ifs
  · exact eraseSelected_keeps gs
  · exact KeepsGivens.refl gs

theorem keydown_keeps (gs : GameState) (key : Key) : KeepsGivens gs (keydown gs key) := by
  have h1 : KeepsGivens gs (match key with
      | .digit n => inputNumber gs n
      | _ => gs) := by
    cases key <;> first | exact inputNumber_keeps gs _ | exact KeepsGivens.refl gs
  have h2 : ∀ gs1 : GameState, KeepsGivens gs1
      (if key = .delete ∨ key = .backspace then eraseSelected gs1 else gs1) := by
    intro gs1
    split_ifs
    · exact eraseSelected_keeps gs1
    · exact KeepsGivens.refl gs1
  have h3 : ∀ gs2 : GameState, KeepsGivens gs2
      (match gs2.selectedCell with
      | none => gs2
      | some (row, col) =>
        if arrowRow key row ≠ row ∨ arrowCol key col ≠ col then
          selectCell gs2 (arrowRow key row) (arrowCol key col)
        else gs2) := by
    intro gs2
    split
    · exact KeepsGivens.refl gs2
    · split_ifs
      · exact selectCell_keeps gs2 _ _
      · exact KeepsGivens.refl gs2
  unfold keydown
  by_cases hact : (!gs.gameActive) = true
  · rw [if_pos hact]
    exact KeepsGivens.refl gs
  · rw [if_neg hact]
    exact (h1.trans (h2 _)).trans (h3 _)

theorem provideHint_keeps (rng : Rng) (gs : GameState) :
    KeepsGivens gs (provideHint rng gs).1 := by
  obtain ⟨hs, hi, hcase⟩ := provideHint_cases rng gs
  rcases hcase with ⟨hb, _, _⟩ | ⟨_, r, c, h0, hb, _⟩
  · exact KeepsGivens.of_grids hb hs hi
  · refine ⟨hs, hi, fun h => ?_⟩
    have hfree : gs.initialBoard r c = 0 := by
      by_contra hne
      rw [(h r c hne).1] at h0
      exact hne h0
    exact (KeepsGivens.of_write r c _ hb hs hi hfree).2.2 h

theorem solvePuzzle_keeps (gs : GameState) : KeepsGivens gs (solvePuzzle gs) := by
  unfold solvePuzzle
  split_ifs
  · exact KeepsGivens.refl gs
  · refine ⟨rfl, rfl, fun h r c hne => ?_⟩
    show copySolution gs.board gs.solution r c = gs.initialBoard r c ∧ _
    rw [copySolution_eq]
    exact ⟨(h r c hne).2.symm, (h r c hne).2⟩

theorem playOp_keeps (op : PlayOp) (gs : GameState) : KeepsGivens gs (op.run gs) := by
  cases op with
  | select row col => exact selectCell_keeps gs row col
  | input number => exact inputNumber_keeps gs number
  | eraser => exact eraserClick_keeps gs
  | key k => exact keydown_keeps gs k
  | hint rng => exact provideHint_keeps rng gs
  | solve => exact solvePuzzle_keeps gs
  | checkCompletion => exact checkGameCompletion_keeps gs
  | checkSolution => exact checkCurrentSolution_keeps gs

/-- The puzzle left by `createPuzzle` has its given cells fixed. -/
theorem createPuzzle_givenFixed (rng : Rng) (gs : GameState) :
    ∃ cs, createPuzzle rng gs = some cs ∧ GivenFixed cs.gs := by
  obtain ⟨cs, hcs, inv, _⟩ := createPuzzleWith_spec (difficultySettings gs.difficulty) rng gs
  refine ⟨cs, hcs, fun r c hne => ?_⟩
  have hsol : cs.gs.solution = gs.solution := by rw [inv.frame]
  rw [inv.initial_eq] at hne ⊢
  refine ⟨rfl, ?_⟩
  rcases inv.cell r c with h | h
  · exact absurd h hne
  · rw [h, hsol]

/-- C17: the given cells are fixed after `createPuzzle`; every play operation
(selectCell, inputNumber, the eraser button, the keyboard handler with its
erase keys, provideHint, solvePuzzle, checkGameCompletion,
checkCurrentSolution) leaves the solution and the initial board unchanged and
keeps the given cells fixed. -/
theorem given_cells_immutable (rng : Rng) (gs0 : GameState) :
    (∃ cs, createPuzzle rng gs0 = some cs ∧ GivenFixed cs.gs) ∧
    ∀ (op : PlayOp) (gs : GameState),
      (op.run gs).solution = gs.solution ∧ (op.run gs).initialBoard = gs.initialBoard ∧
      (GivenFixed gs → GivenFixed (op.run gs)) :=
  ⟨createPuzzle_givenFixed rng gs0, fun op gs => playOp_keeps op gs⟩

/-- Witness for C17: a digit entered in the sample session. -/
theorem given_cells_immutable_witness :
    GivenFixed sampleState ∧ GivenFixed ((PlayOp.input 7).run sampleState) :=
  have h : GivenFixed sampleState := by
    intro r c
    revert r c
    decide
  ⟨h, ((given_cells_immutable (fun _ => 0) sampleState).2 (.input 7) sampleState).2.2 h⟩

/-! ## Completions as grids -/

/-- The true solution count is zero exactly when no fully filled valid grid
agrees with the grid on its non-zero cells. -/
theorem trueCount_eq_zero_iff (g : Grid) :
    trueCount g = 0 ↔ ¬ ∃ s : Grid, IsValidSolution s ∧ Agrees g s := by
  unfold trueCount
  rw [Finset.card_eq_zero, Finset.eq_empty_iff_forall_not_mem]
  constructor
  · rintro h ⟨s, hv, ha⟩
    have hlt : ∀ r c : Fin 9, s r c < 10 := fun r c => by
      have := (mem_digits_iff _).mp (hv.mem_digits r c)
      omega
    have hs : toGrid (fun r c => (⟨s r c, hlt r c⟩ : Fin 10)) = s := rfl
    exact h (fun r c => ⟨s r c, hlt r c⟩) (mem_completions.mpr (by rw [hs]; exact ⟨hv, ha⟩))
  · intro h s hs
    exact h ⟨toGrid s, mem_completions.mp hs⟩

/-- The true solution count is one exactly when one and only one fully filled
valid grid agrees with the grid on its non-zero cells. -/
theorem trueCount_eq_one_iff (g : Grid) :
    trueCount g = 1 ↔ ∃! s : Grid, IsValidSolution s ∧ Agrees g s := by
  unfold trueCount
  rw [Finset.card_eq_one]
  constructor
  · rintro ⟨a, ha⟩
    have hmem : a ∈ completions g := by rw [ha]; exact Finset.mem_singleton_self a
    refine ⟨toGrid a, mem_completions.mp hmem, ?_⟩
    rintro s ⟨hv, hag⟩
    have hlt : ∀ r c : Fin 9, s r c < 10 := fun r c => by
      have := (mem_digits_iff _).mp (hv.mem_digits r c)
      omega
    have hs : toGrid (fun r c => (⟨s r c, hlt r c⟩ : Fin 10)) = s := rfl
    have hin : (fun r c => (⟨s r c, hlt r c⟩ : Fin 10)) ∈ completions g :=
      mem_completions.mpr (by rw [hs]; exact ⟨hv, hag⟩)
    rw [ha, Finset.mem_singleton] at hin
    rw [← hs, hin]
  · rintro ⟨s, ⟨hv, hag⟩, huniq⟩
    have hlt : ∀ r c : Fin 9, s r c < 10 := fun r c => by
      have := (mem_digits_iff _).mp (hv.mem_digits r c)
      omega
    have hs : toGrid (fun r c => (⟨s r c, hlt r c⟩ : Fin 10)) = s := rfl
    refine ⟨fun r c => ⟨s r c, hlt r c⟩, ?_⟩
    ext t
    rw [Finset.mem_singleton, mem_completions]
    constructor
    · intro ht
      apply toGrid_injective
      rw [hs]
      exact huniq _ ht
    · rintro rfl
      rw [hs]
      exact ⟨hv, hag⟩

/-- A grid that has a completion is conflict-free. -/
theorem conflictFree_of_completion {g s : Grid} (hv : IsValidSolution s) (ha : Agrees g s) :
    ConflictFree g := by
  intro r c r' c' hne hu hnz heq
  have h1 : s r c = g r c := ha r c hnz
  have h2 : s r' c' = g r' c' := ha r' c' (by rw [← heq]; exact hnz)
  exact hv.conflictFree r c r' c' hne hu (by rw [h1]; exact hnz) (by rw [h1, h2, heq])

/-! ## The solution counter, in full -/

theorem twoSolutions_count : countSolutions twoSolutions 2 = some 2 := by
  decide

theorem twoSolutions_conflictFree : ConflictFree twoSolutions := by
  decide

theorem twoSolutions_le : ∀ r c : Fin 9, twoSolutions r c ≤ 9 := by
  decide

theorem countSolutions_eq_min {g : Grid} (hcf : ConflictFree g)
    (h9 : ∀ r c : Fin 9, g r c ≤ 9) {maxSolutions : Nat} (hmax : 1 ≤ maxSolutions) :
    countSolutions g maxSolutions = some (min maxSolutions (trueCount g)) := by
  simp only [countSolutions, countSolutionsState_eq_min hcf h9 hmax, Option.map_some']

/-- C18 as stated fails for `maxSolutions = 1`: the grid `twoSolutions` is
conflict-free and has at least two completions, yet `countSolutions` with
cutoff 1 returns 1. -/
theorem countSolutions_spec_counterexample :
    ConflictFree twoSolutions ∧ (∀ r c : Fin 9, twoSolutions r c ≤ 9) ∧
    countSolutions twoSolutions 1 = some 1 ∧ 2 ≤ trueCount twoSolutions ∧
    ¬ (countSolutions twoSolutions 1 = some 1 ↔ trueCount twoSolutions = 1) := by
  have h2 := countSolutions_eq_min twoSolutions_conflictFree twoSolutions_le (by decide : 1 ≤ 2)
  rw [twoSolutions_count, Option.some.injEq] at h2
  have hN : 2 ≤ trueCount twoSolutions := by omega
  have h1 := countSolutions_eq_min twoSolutions_conflictFree twoSolutions_le (by decide : 1 ≤ 1)
  rw [Nat.min_eq_left (by omega)] at h1
  refine ⟨twoSolutions_conflictFree, twoSolutions_le, h1, hN, ?_⟩
  intro hiff
  have := hiff.mp h1
  omega

/-- C18, amended: on a conflict-free grid of digits 0..9 and for a cutoff
`maxSolutions >= 1`, `countSolutions` returns the minimum of the cutoff and the
number of completions and leaves the grid cell for cell as it was; it returns 0
exactly when there is no completion and, when the cutoff is at least 2, it
returns 1 exactly when there is one and only one completion. -/
theorem countSolutions_spec (g : Grid) (hcf : ConflictFree g) (h9 : ∀ r c : Fin 9, g r c ≤ 9)
    (maxSolutions : Nat) (hmax : 1 ≤ maxSolutions) :
    countSolutionsState g maxSolutions = some (g, min maxSolutions (trueCount g)) ∧
    countSolutions g maxSolutions = some (min maxSolutions (trueCount g)) ∧
    (countSolutions g maxSolutions = some 0 ↔
      ¬ ∃ s : Grid, IsValidSolution s ∧ Agrees g s) ∧
    (2 ≤ maxSolutions →
      (countSolutions g maxSolutions = some 1 ↔
        ∃! s : Grid, IsValidSolution s ∧ Agrees g s)) := by
  have h := countSolutions_eq_min hcf h9 hmax
  refine ⟨countSolutionsState_eq_min hcf h9 hmax, h, ?_, ?_⟩
  · rw [h, Option.some.injEq, ← trueCount_eq_zero_iff]
    omega
  · intro h2
    rw [h, Option.some.injEq, ← trueCount_eq_one_iff]
    omega

/-- Witness for C18 (amended): the grid `twoSolutions` with cutoff 2. -/
theorem countSolutions_spec_witness :
    countSolutionsState twoSolutions 2 = some (twoSolutions, min 2 (trueCount twoSolutions)) ∧
    (countSolutions twoSolutions 2 = some 1 ↔
      ∃! s : Grid, IsValidSolution s ∧ Agrees twoSolutions s) :=
  have h := countSolutions_spec twoSolutions (by decide) (by decide) 2 (by decide)
  ⟨h.1, h.2.2.2 (by decide)⟩

/-! ## The solver, sound and complete -/

/-- C19: on a conflict-free grid of digits 0..9, for every random stream,
`solveSudoku` returns, and when it returns true the board has no zero cell,
agrees with the input on every cell that was non-zero, and has each digit 1..9
exactly once in every row, column and box. -/
theorem solveSudoku_sound (rng : Rng) (b : Grid) (hcf : ConflictFree b)
    (h9 : ∀ r c : Fin 9, b r c ≤ 9) :
    ∃ res b' rng', solveSudoku rng b = some (res, b', rng') ∧
      (res = true →
        (∀ r c : Fin 9, b' r c ≠ 0) ∧ Agrees b b' ∧
        ∀ u : Fin 9, ∀ d ∈ digits,
          occurrences b' (rowCell u) d = 1 ∧ occurrences b' (colCell u) d = 1 ∧
          occurrences b' (boxCell u) d = 1) := by
  obtain ⟨res, b', rng', hcall, hout⟩ := solveSudoku_spec rng b
  refine ⟨res, b', rng', hcall, fun hres => ?_⟩
  obtain ⟨hv, ha⟩ := (hout.2 hcf h9).1 hres
  exact ⟨hv.1, ha, hv.2⟩

theorem solveSudoku_sample :
    (solveSudoku (fun _ => 0) (setCell sampleSolution 0 0 0)).map (fun x => x.1) = some true := by
  decide

/-- Witness for C19: the sample grid with its cell (0,0) emptied is solved. -/
theorem solveSudoku_sound_witness :
    ∃ b' rng', solveSudoku (fun _ => 0) (setCell sampleSolution 0 0 0) = some (true, b', rng') ∧
      (∀ r c : Fin 9, b' r c ≠ 0) ∧ Agrees (setCell sampleSolution 0 0 0) b' := by
  obtain ⟨res, b', rng', hcall, himp⟩ :=
    solveSudoku_sound (fun _ => 0) (setCell sampleSolution 0 0 0) (by decide) (by decide)
  have hres : res = true := by
    have h := solveSudoku_sample
    rw [hcall] at h
    simpa using h
  subst hres
  exact ⟨b', rng', hcall, (himp rfl).1, (himp rfl).2.1⟩

/-- C20: on every grid of digits 0..9, for every random stream, `solveSudoku`
returns; when it returns false the board is cell for cell the input board and
no fully filled valid grid agrees with the input on its non-zero cells; so
whenever such a completion exists it returns true. -/
theorem solveSudoku_complete (rng : Rng) (b : Grid) (h9 : ∀ r c : Fin 9, b r c ≤ 9) :
    ∃ res b' rng', solveSudoku rng b = some (res, b', rng') ∧
      (res = false → b' = b ∧ ¬ ∃ s : Grid, IsValidSolution s ∧ Agrees b s) ∧
      ((∃ s : Grid, IsValidSolution s ∧ Agrees b s) → res = true) := by
  obtain ⟨res, b', rng', hcall, hout⟩ := solveSudoku_spec rng b
  have hno : res = false → ¬ ∃ s : Grid, IsValidSolution s ∧ Agrees b s := by
    rintro hres ⟨s, hv, ha⟩
    have h0 := (hout.2 (conflictFree_of_completion hv ha) h9).2 hres
    exact (trueCount_eq_zero_iff b).mp h0 ⟨s, hv, ha⟩
  refine ⟨res, b', rng', hcall, fun hres => ⟨hout.1 hres, hno hres⟩, fun hex => ?_⟩
  cases res with
  | true => rfl
  | false => exact absurd hex (hno rfl)

theorem solveSudoku_stuck :
    (solveSudoku (fun _ => 0) stuckGrid).map (fun x => x.1) = some false := by
  decide

/-- Witness for C20: the grid `stuckGrid` is given back unchanged and has no
completion. -/
theorem solveSudoku_complete_witness :
    ∃ b' rng', solveSudoku (fun _ => 0) stuckGrid = some (false, b', rng') ∧
      b' = stuckGrid ∧ ¬ ∃ s : Grid, IsValidSolution s ∧ Agrees stuckGrid s := by
  obtain ⟨res, b', rng', hcall, himp, _⟩ :=
    solveSudoku_complete (fun _ => 0) stuckGrid (by decide)
  have hres : res = false := by
    have h := solveSudoku_stuck
    rw [hcall] at h
    simpa using h
  subst hres
  exact ⟨b', rng', hcall, (himp rfl).1, (himp rfl).2⟩

/-! ## The seeded diagonal boxes -/

/-- The cells of a diagonal box, in the order in which `fillBox` fills them. -/
theorem boxCell_diagBox (b : Fin 3) (k : Fin 9) :
    boxCell (diagBox b) k =
      (cornerIdx b ⟨k.val / 3, by omega⟩, cornerIdx b ⟨k.val % 3, by omega⟩) := by
  unfold boxCell diagBox cornerIdx
  apply Prod.ext <;> apply Fin.ext <;> simp only <;> omega

/-- C21: for every random stream, after the three `fillBox` calls of
`generateSolvedBoard` on the all-zero grid each of the three diagonal boxes
contains each digit 1..9 exactly once, every cell outside those boxes is 0, and
no two filled cells that share a row, a column or a box hold the same digit. -/
theorem fillDiagonal_spec (rng : Rng) :
    (∀ b : Fin 3, ∀ d ∈ digits,
      occurrences (fillDiagonal rng emptyGrid).1 (boxCell (diagBox b)) d = 1) ∧
    (∀ r c : Fin 9, r.val / 3 ≠ c.val / 3 → (fillDiagonal rng emptyGrid).1 r c = 0) ∧
    ConflictFree (fillDiagonal rng emptyGrid).1 := by
  obtain ⟨f, hin, hout⟩ := fillDiagonal_cells rng emptyGrid
  refine ⟨?_, fun r c h => hout r c h, (fillDiagonal_conflictFree rng).1⟩
  intro b
  have hval : ∀ k : Fin 9,
      (fillDiagonal rng emptyGrid).1 (boxCell (diagBox b) k).1 (boxCell (diagBox b) k).2 =
        (shuffleArray (f b) digits).1.reverse.getD k.val 0 := by
    intro k
    rw [boxCell_diagBox, hin]
    congr 1
    show 3 * (k.val / 3) + k.val % 3 = k.val
    omega
  have hinj : Function.Injective fun k : Fin 9 =>
      (fillDiagonal rng emptyGrid).1 (boxCell (diagBox b) k).1 (boxCell (diagBox b) k).2 := by
    intro k l hkl
    simp only [hval] at hkl
    exact Fin.ext (popped_getD_injective (f b) _ _ k.isLt l.isLt hkl)
  have hrange : ∀ k : Fin 9,
      (fillDiagonal rng emptyGrid).1 (boxCell (diagBox b) k).1 (boxCell (diagBox b) k).2 ∈
        digits := by
    intro k
    rw [hval]
    exact popped_getD_mem (f b) _ k.isLt
  exact unit_once_of_injective _ hinj hrange

/-- Witness for C21: the constant random stream; the digit 5 occurs once in
the middle box. -/
theorem fillDiagonal_spec_witness :
    occurrences (fillDiagonal (fun _ => 0) emptyGrid).1 (boxCell (diagBox 1)) 5 = 1 ∧
    ConflictFree (fillDiagonal (fun _ => 0) emptyGrid).1 :=
  ⟨(fillDiagonal_spec (fun _ => 0)).1 1 5 (by decide), (fillDiagonal_spec (fun _ => 0)).2.2⟩

/-! ## Depth of the recursions -/

/-- A failed `solveSudoku` loop gives the board back when its recursive calls
do. -/
theorem solveLoop_restore (recur : Rng → Grid → Option (Bool × Grid × Rng))
    (b : Grid) (r c : Fin 9) (hb : b r c = 0)
    (hrec : ∀ num rng b' rng', recur rng (setCell b r c num) = some (false, b', rng') →
      b' = setCell b r c num) :
    ∀ (nums : List Nat) (rng : Rng) (b' : Grid) (rng' : Rng),
      solveLoop recur r c nums rng b = some (false, b', rng') → b' = b := by
  intro nums
  induction nums with
  | nil =>
    intro rng b' rng' h
    simp only [solveLoop, Option.some.injEq, Prod.mk.injEq] at h
    exact h.2.1.symm
  | cons num rest ih =>
    intro rng b' rng' h
    simp only [solveLoop] at h
    split_ifs at h with hv
    · cases hcall : recur rng (setCell b r c num) with
      | none => rw [hcall] at h; simp at h
      | some out =>
        obtain ⟨res, b1, rng1⟩ := out
        rw [hcall] at h
        cases res with
        | true => simp at h
        | false =>
          have hb1 := hrec num rng b1 rng1 hcall
          simp only at h
          rw [hb1, setCell_clear hb] at h
          exact ih rng1 b' rng' h
    · exact ih rng b' rng' h

/-- A failed call of `solveSudoku` gives the board back, whatever the budget. -/
theorem solveSudokuFuel_restore :
    ∀ (fuel : Nat) (rng : Rng) (b b' : Grid) (rng' : Rng),
      solveSudokuFuel fuel rng b = some (false, b', rng') → b' = b := by
  intro fuel
  induction fuel with
  | zero => intro rng b b' rng' h; simp [solveSudokuFuel] at h
  | succ fuel ih =>
    intro rng b b' rng' h
    simp only [solveSudokuFuel] at h
    cases hfe : findEmpty b with
    | none => rw [hfe] at h; simp at h
    | some p =>
      obtain ⟨r, c⟩ := p
      rw [hfe] at h
      exact solveLoop_restore _ b r c (findEmpty_some hfe)
        (fun num rng1 b1 rng2 h1 => ih rng1 _ b1 rng2 h1) _ _ b' rng' h

/-- Every recursive call made by the loop of `solveSudoku` at an empty cell is
on a grid with one zero cell fewer than the board of the caller. -/
theorem solveLoop_guard (fuel : Nat) (b : Grid) (r c : Fin 9) (hb : b r c = 0) :
    ∀ (nums : List Nat), (∀ num ∈ nums, num ≠ 0) → ∀ rng : Rng,
      solveLoop (solveSudokuFuel fuel) r c nums rng b =
        solveLoop (solveCallFrom b fuel) r c nums rng b := by
  intro nums
  induction nums with
  | nil => intro _ rng; rfl
  | cons num rest ih =>
    intro hnz rng
    have ih' := ih (fun n hn => hnz n (List.mem_cons_of_mem _ hn))
    have hz : zeroCount (setCell b r c num) + 1 = zeroCount b :=
      zeroCount_setCell_fill hb (hnz num (List.mem_cons_self _ _))
    have hcall : solveCallFrom b fuel rng (setCell b r c num) =
        solveSudokuFuel fuel rng (setCell b r c num) := by
      unfold solveCallFrom guardCall
      rw [if_pos hz]
    simp only [solveLoop]
    rw [hcall]
    split_ifs with hv
    · cases hres : solveSudokuFuel fuel rng (setCell b r c num) with
      | none => rfl
      | some out =>
        obtain ⟨res, b1, rng1⟩ := out
        cases res with
        | true => rfl
        | false =>
          have hb1 := solveSudokuFuel_restore fuel rng _ b1 rng1 hres
          simp only
          rw [hb1, setCell_clear hb]
          exact ih' rng1
    · exact ih' rng

/-- A call of `backtrack` gives the board back, whatever the budget. -/
theorem backtrackLoop_restore (recur : Grid → Nat → Option (Grid × Nat)) (maxSolutions : Nat)
    (b : Grid) (r c : Fin 9) (hb : b r c = 0)
    (hrec : ∀ num s b' s', recur (setCell b r c num) s = some (b', s') →
      b' = setCell b r c num) :
    ∀ (nums : List Nat) (s : Nat) (b' : Grid) (s' : Nat),
      backtrackLoop recur maxSolutions r c nums b s = some (b', s') → b' = b := by
  intro nums
  induction nums with
  | nil =>
    intro s b' s' h
    simp only [backtrackLoop, Option.some.injEq, Prod.mk.injEq] at h
    exact h.1.symm
  | cons num rest ih =>
    intro s b' s' h
    simp only [backtrackLoop] at h
    split_ifs at h with hv
    · cases hcall : recur (setCell b r c num) s with
      | none => rw [hcall] at h; simp at h
      | some out =>
        obtain ⟨b1, s1⟩ := out
        rw [hcall] at h
        have hb1 := hrec num s b1 s1 hcall
        simp only at h
        rw [hb1, setCell_clear hb] at h
        split_ifs at h with hmax
        · simp only [Option.some.injEq, Prod.mk.injEq] at h
          exact h.1.symm
        · exact ih s1 b' s' h
    · exact ih s b' s' h

theorem backtrack_restore (maxSolutions : Nat) :
    ∀ (fuel : Nat) (b : Grid) (s : Nat) (b' : Grid) (s' : Nat),
      backtrack maxSolutions fuel b s = some (b', s') → b' = b := by
  intro fuel
  induction fuel with
  | zero => intro b s b' s' h; simp [backtrack] at h
  | succ fuel ih =>
    intro b s b' s' h
    simp only [backtrack] at h
    cases hfe : findEmpty b with
    | none =>
      rw [hfe] at h
      simp only [Option.some.injEq, Prod.mk.injEq] at h
      exact h.1.symm
    | some p =>
      obtain ⟨r, c⟩ := p
      rw [hfe] at h
      exact backtrackLoop_restore _ maxSolutions b r c (findEmpty_some hfe)
        (fun num s1 b1 s2 h1 => ih _ s1 b1 s2 h1) _ _ b' s' h

/-- Every recursive call made by the loop of `backtrack` at an empty cell is
on a grid with one zero cell fewer than the board of the caller. -/
theorem backtrackLoop_guard (maxSolutions fuel : Nat) (b : Grid) (r c : Fin 9)
    (hb : b r c = 0) :
    ∀ (nums : List Nat), (∀ num ∈ nums, num ≠ 0) → ∀ s : Nat,
      backtrackLoop (backtrack maxSolutions fuel) maxSolutions r c nums b s =
        backtrackLoop (backtrackCallFrom maxSolutions b fuel) maxSolutions r c nums b s := by
  intro nums
  induction nums with
  | nil => intro _ s; rfl
  | cons num rest ih =>
    intro hnz s
    have ih' := ih (fun n hn => hnz n (List.mem_cons_of_mem _ hn))
    have hz : zeroCount (setCell b r c num) + 1 = zeroCount b :=
      zeroCount_setCell_fill hb (hnz num (List.mem_cons_self _ _))
    have hcall : backtrackCallFrom maxSolutions b fuel (setCell b r c num) s =
        backtrack maxSolutions fuel (setCell b r c num) s := by
      unfold backtrackCallFrom guardCall
      rw [if_pos hz]
    simp only [backtrackLoop]
    rw [hcall]
    split_ifs with hv
    · cases hres : backtrack maxSolutions fuel (setCell b r c num) s with
      | none => rfl
      | some out =>
        obtain ⟨b1, s1⟩ := out
        have hb1 := backtrack_restore maxSolutions fuel _ s b1 s1 hres
        simp only
        rw [hb1, setCell_clear hb]
        split_ifs with hmax
        · rfl
        · exact ih' s1
    · exact ih' s

/-- The loop of `solveSudoku` gives the same result when its recursive calls
are given a larger budget. -/
theorem solveLoop_mono (recur recur' : Rng → Grid → Option (Bool × Grid × Rng))
    (h : ∀ rng g out, recur rng g = some out → recur' rng g = some out) (r c : Fin 9) :
    ∀ (nums : List Nat) (rng : Rng) (b : Grid) (out : Bool × Grid × Rng),
      solveLoop recur r c nums rng b = some out → solveLoop recur' r c nums rng b = some out := by
  intro nums
  induction nums with
  | nil => intro rng b out hs; exact hs
  | cons num rest ih =>
    intro rng b out hs
    simp only [solveLoop] at hs ⊢
    split_ifs at hs ⊢ with hv
    · cases hcall : recur rng (setCell b r c num) with
      | none => rw [hcall] at hs; simp at hs
      | some res =>
        rw [hcall] at hs
        rw [h rng _ res hcall]
        obtain ⟨ok, b1, rng1⟩ := res
        cases ok with
        | true => exact hs
        | false => exact ih rng1 _ out hs
    · exact ih rng b out hs

/-- A larger budget does not change the result of `solveSudoku`. -/
theorem solveSudokuFuel_mono :
    ∀ (fuel : Nat) (rng : Rng) (b : Grid) (out : Bool × Grid × Rng),
      solveSudokuFuel fuel rng b = some out →
      ∀ extra : Nat, solveSudokuFuel (fuel + extra) rng b = some out := by
  intro fuel
  induction fuel with
  | zero => intro rng b out h; simp [solveSudokuFuel] at h
  | succ fuel ih =>
    intro rng b out h extra
    rw [Nat.add_right_comm]
    simp only [solveSudokuFuel] at h ⊢
    cases hfe : findEmpty b with
    | none => rw [hfe] at h; exact h
    | some p =>
      obtain ⟨r, c⟩ := p
      rw [hfe] at h
      exact solveLoop_mono _ _ (fun rng1 g res hres => ih rng1 g res hres extra) r c _ _ _ out h

theorem backtrackLoop_mono (recur recur' : Grid → Nat → Option (Grid × Nat))
    (h : ∀ g s out, recur g s = some out → recur' g s = some out) (maxSolutions : Nat)
    (r c : Fin 9) :
    ∀ (nums : List Nat) (b : Grid) (s : Nat) (out : Grid × Nat),
      backtrackLoop recur maxSolutions r c nums b s = some out →
      backtrackLoop recur' maxSolutions r c nums b s = some out := by
  intro nums
  induction nums with
  | nil => intro b s out hs; exact hs
  | cons num rest ih =>
    intro b s out hs
    simp only [backtrackLoop] at hs ⊢
    split_ifs at hs ⊢ with hv
    · cases hcall : recur (setCell b r c num) s with
      | none => rw [hcall] at hs; simp at hs
      | some res =>
        rw [hcall] at hs
        rw [h _ s res hcall]
        obtain ⟨b1, s1⟩ := res
        simp only at hs ⊢
        split_ifs at hs ⊢ with hmax
        · exact hs
        · exact ih _ s1 out hs
    · exact ih b s out hs

/-- A larger budget does not change the result of `backtrack`. -/
theorem backtrack_mono (maxSolutions : Nat) :
    ∀ (fuel : Nat) (b : Grid) (s : Nat) (out : Grid × Nat),
      backtrack maxSolutions fuel b s = some out →
      ∀ extra : Nat, backtrack maxSolutions (fuel + extra) b s = some out := by
  intro fuel
  induction fuel with
  | zero => intro b s out h; simp [backtrack] at h
  | succ fuel ih =>
    intro b s out h extra
    rw [Nat.add_right_comm]
    simp only [backtrack] at h ⊢
    cases hfe : findEmpty b with
    | none => rw [hfe] at h; exact h
    | some p =>
      obtain ⟨r, c⟩ := p
      rw [hfe] at h
      exact backtrackLoop_mono _ _ (fun g s1 res hres => ih g s1 res hres extra) maxSolutions
        r c _ _ _ out h

/-- C22: on every grid, for every random stream and every cutoff: a grid has
at most 81 zero cells; every recursive call of `solveSudoku` and of the inner
`backtrack` of `countSolutions` is made on a grid with exactly one zero cell
fewer than the caller's grid at entry (the calls can be restricted to such
grids without changing anything); so a recursion budget of one level per zero
cell, plus one for the call itself, is enough for both functions to return,
with the result the entry points compute. -/
theorem recursion_depth (rng : Rng) (b : Grid) (maxSolutions : Nat) :
    zeroCount b ≤ 81 ∧
    (∀ (fuel : Nat) (row col : Fin 9), findEmpty b = some (row, col) →
      solveSudokuFuel (fuel + 1) rng b =
        solveLoop (solveCallFrom b fuel) row col (shuffleArray rng digits).1
          (shuffleArray rng digits).2 b) ∧
    (∀ (fuel solutions : Nat) (row col : Fin 9), findEmpty b = some (row, col) →
      backtrack maxSolutions (fuel + 1) b solutions =
        backtrackLoop (backtrackCallFrom maxSolutions b fuel) maxSolutions row col digits b
          solutions) ∧
    (∃ out, solveSudokuFuel (zeroCount b + 1) rng b = some out ∧
      solveSudoku rng b = some out) ∧
    (∃ out, backtrack maxSolutions (zeroCount b + 1) b 0 = some out ∧
      countSolutionsState b maxSolutions = some out) := by
  have h81 := zeroCount_le b
  refine ⟨h81, ?_, ?_, ?_, ?_⟩
  · intro fuel row col hfe
    simp only [solveSudokuFuel, hfe]
    exact solveLoop_guard fuel b row col (findEmpty_some hfe) _
      (fun num hnum => digits_ne_zero ((mem_shuffleArray_digits rng num).mp hnum)) _
  · intro fuel solutions row col hfe
    simp only [backtrack, hfe]
    exact backtrackLoop_guard maxSolutions fuel b row col (findEmpty_some hfe) digits
      (fun num hnum => digits_ne_zero hnum) solutions
  · obtain ⟨res, b', rng', hcall, _⟩ :=
      solveSudokuFuel_spec (zeroCount b + 1) rng b (Nat.lt_succ_self _)
    refine ⟨_, hcall, ?_⟩
    have hm := solveSudokuFuel_mono _ rng b _ hcall (81 - zeroCount b)
    have he : zeroCount b + 1 + (81 - zeroCount b) = 82 := by omega
    rw [he] at hm
    exact hm
  · obtain ⟨s', hcall⟩ := backtrack_total maxSolutions (zeroCount b + 1) b 0 (Nat.lt_succ_self _)
    refine ⟨_, hcall, ?_⟩
    have hm := backtrack_mono maxSolutions _ b 0 _ hcall (81 - zeroCount b)
    have he : zeroCount b + 1 + (81 - zeroCount b) = 82 := by omega
    rw [he] at hm
    exact hm

/-- Witness for C22: the grid `twoSolutions`, whose first empty cell is
(0,3). -/
theorem recursion_depth_witness :
    solveSudokuFuel 5 (fun _ => 0) twoSolutions =
      solveLoop (solveCallFrom twoSolutions 4) 0 3 (shuffleArray (fun _ => 0) digits).1
        (shuffleArray (fun _ => 0) digits).2 twoSolutions ∧
    ∃ out, solveSudokuFuel (zeroCount twoSolutions + 1) (fun _ => 0) twoSolutions = some out ∧
      solveSudoku (fun _ => 0) twoSolutions = some out :=
  ⟨(recursion_depth (fun _ => 0) twoSolutions 2).2.1 4 0 3 (by decide),
   (recursion_depth (fun _ => 0) twoSolutions 2).2.2.2.1⟩

/-! ## Best time -/

/-- What a win does to the best time: the timer is recorded when there was no
best time, when the best time was 0, or when the timer is below it. -/
theorem checkGameCompletion_bestTime (gs : GameState) (hactive : gs.gameActive = true)
    (hfull : ∀ r c : Fin 9, gs.board r c ≠ 0)
    (hc : ∀ r c : Fin 9, gs.board r c = gs.solution r c) :
    (checkGameCompletion gs).1.bestTime =
      match gs.bestTime with
      | none => some gs.timer
      | some b => if b = 0 then some gs.timer else some (min b gs.timer) := by
  rw [checkGameCompletion_of_won gs hactive hfull hc]
  unfold bestTimeBeaten
  dsimp only
  cases hb : gs.bestTime with
  | none => simp
  | some b =>
    dsimp only
    by_cases h0 : b = 0
    · subst h0
      simp [hb]
    · rw [if_neg h0]
      by_cases hlt : gs.timer < b
      · simp [h0, hlt, hb, Nat.min_eq_right (Nat.le_of_lt hlt)]
      · simp [h0, hlt, hb, Nat.min_eq_left (Nat.le_of_not_lt hlt)]

/-- C23, the code at the failing input: `zeroBestState` is active, its board
is completely filled and equal to the solution, its timer is 75 and its best
time is 0; after `checkGameCompletion` the best time is 75, not
`min(0, 75) = 0`, because the test `!gameState.bestTime` takes the number 0
for a missing best time. -/
theorem bestTime_zero_overwritten :
    zeroBestState.gameActive = true ∧ zeroBestState.timer = 75 ∧
    zeroBestState.bestTime = some 0 ∧
    (∀ r c : Fin 9, zeroBestState.board r c ≠ 0 ∧
      zeroBestState.board r c = zeroBestState.solution r c) ∧
    (checkGameCompletion zeroBestState).2 = some true ∧
    (checkGameCompletion zeroBestState).1.bestTime = some 75 ∧
    (checkGameCompletion zeroBestState).1.bestTime ≠ some (min 0 75) := by
  decide

end Sudoku
